import Mathlib

/-!
Shallow Lean embedding of the EchoBuy conversational agent core
(src/conversational_agent.py): the response annotation parser, the voice
text optimizer, the intent detector, the product extractor and the link
extractor, together with theorems settling the specification claims.

Python strings are modelled as `List Char` (on the ASCII fragment:
`str.lower`, `str.strip` and the regex character classes are modelled with
their ASCII behaviour).  Each regular expression of the source is modelled
by a hand-rolled anchored matcher reproducing the leftmost-search,
greedy/lazy quantifier and backtracking behaviour of Python `re` for
exactly that pattern; `re.findall`, `re.sub` and `re.search` are the
generic drivers `scanAll`, `subAll` and `searchFirst` below.
-/

namespace EchoBuy

abbrev Str := List Char

/-- Python whitespace in the ASCII range (`str.strip`, regex `\s`):
space, tab, newline, carriage return, vertical tab, form feed. -/
def pyIsSpace (c : Char) : Bool :=
  c = ' ' || c = '\t' || c = '\n' || c = '\r' || c = Char.ofNat 11 || c = Char.ofNat 12

/-- `s.strip()`. -/
def pyStrip (s : Str) : Str :=
  ((s.dropWhile pyIsSpace).reverse.dropWhile pyIsSpace).reverse

/-- `s.split(sep)` for a one-character separator. -/
def pySplitCh (sep : Char) : Str → List Str
  | [] => [[]]
  | c :: s =>
    match pySplitCh sep s with
    | [] => [[]]
    | r :: rs => if c = sep then [] :: r :: rs else (c :: r) :: rs

/-- `sep.join(xs)`. -/
def pyJoin (sep : Str) : List Str → Str
  | [] => []
  | [x] => x
  | x :: y :: xs => x ++ sep ++ pyJoin sep (y :: xs)

/-- `needle in hay` for strings: substring containment. -/
def containsSub (needle : Str) : Str → Bool
  | [] => needle.isEmpty
  | c :: s => needle.isPrefixOf (c :: s) || containsSub needle s

/-- Bounded core of `s.replace(old, new)`: all non-overlapping occurrences,
scanning left to right.  `fuel` bounds the recursion; `pyReplace` passes
`s.length`, which is always enough. -/
def pyReplaceF (old new : Str) : Nat → Str → Str
  | _, [] => []
  | 0, s => s
  | fuel + 1, c :: s =>
    if old.isPrefixOf (c :: s) && !old.isEmpty then
      new ++ pyReplaceF old new fuel (s.drop (old.length - 1))
    else
      c :: pyReplaceF old new fuel s

/-- `s.replace(old, new)` (Python semantics for nonempty `old`). -/
def pyReplace (old new s : Str) : Str :=
  pyReplaceF old new s.length s

/-- `s.split(sep)[0]` for a nonempty separator string: the prefix of `s`
before the first occurrence of `sep` (all of `s` if there is none). -/
def takeBeforeSub (sep : Str) : Str → Str
  | [] => []
  | c :: s => if sep.isPrefixOf (c :: s) then [] else c :: takeBeforeSub sep s

/-- `int(g)` for a nonempty string of decimal digits. -/
def digitsToNat (s : Str) : Nat :=
  s.foldl (fun n c => 10 * n + (c.toNat - 48)) 0

/-- ASCII fragment of `str.lower()`. -/
def pyLowerChar (c : Char) : Char :=
  if 'A' ≤ c && c ≤ 'Z' then Char.ofNat (c.toNat + 32) else c

/-- `s.lower()` (ASCII fragment). -/
def pyLower (s : Str) : Str := s.map pyLowerChar

/-- Case-insensitive prefix test (a regex literal under `re.IGNORECASE`). -/
def ciIsPrefixOf : Str → Str → Bool
  | [], _ => true
  | _ :: _, [] => false
  | a :: as, b :: bs => (pyLowerChar a == pyLowerChar b) && ciIsPrefixOf as bs

/-- `\s*([C]+)` for a character class `C` that contains all whitespace
(such as `[^|]` or `[^\]]`): the greedy pair consumes the maximal run `u`
of class characters; the capture is `u` minus the whitespace prefix the
greedy `\s*` takes, except that when `u` is all whitespace, backtracking
leaves exactly the last character of `u` to the group.  Returns the
capture and the input remaining after `u`. -/
def wsGroupPlus (p : Char → Bool) (s : Str) : Option (Str × Str) :=
  let u := s.takeWhile p
  if u.isEmpty then none
  else
    let w := u.dropWhile pyIsSpace
    some (if w.isEmpty then u.drop (u.length - 1) else w, s.drop u.length)

/-- `([C]+)` with no leading `\s*`: the capture is the maximal run itself. -/
def groupPlus (p : Char → Bool) (s : Str) : Option (Str × Str) :=
  let u := s.takeWhile p
  if u.isEmpty then none else some (u, s.drop u.length)

/-- `([C]*)`: a possibly empty maximal run. -/
def groupStar (p : Char → Bool) (s : Str) : Str × Str :=
  (s.takeWhile p, s.dropWhile p)

/-- One literal character of a pattern. -/
def expectCh (c : Char) : Str → Option Str
  | [] => none
  | d :: s => if d = c then some s else none

def hdrDisplayLink : Str := '[' :: "DISPLAY_LINK:".toList
def hdrProductCard : Str := '[' :: "PRODUCT_CARD:".toList
def hdrCompare : Str := '[' :: "COMPARE_PRODUCTS:".toList
def hdrPurchase : Str := '[' :: "PURCHASE_INTENT:".toList

/-- Anchored match of `\[DISPLAY_LINK:\s*([^|]+)\s*\|\s*([^\]]+)\]`:
the two captures and the length of the matched prefix. -/
def matchDisplayLink (s : Str) : Option ((Str × Str) × Nat) :=
  if hdrDisplayLink.isPrefixOf s then
    match wsGroupPlus (· != '|') (s.drop hdrDisplayLink.length) with
    | none => none
    | some (name, r1) =>
      match expectCh '|' r1 with
      | none => none
      | some r2 =>
        match wsGroupPlus (· != ']') r2 with
        | none => none
        | some (url, r3) =>
          match expectCh ']' r3 with
          | none => none
          | some r4 => some ((name, url), s.length - r4.length)
  else none

/-- Anchored match of
`\[PRODUCT_CARD:\s*([^|]+)\|([^|]+)\|([^|]+)\|([^|]+)\|([^|]*)\|([^|]*)\|([^\]]*)\]`:
the seven captures and the length of the matched prefix. -/
def matchProductCard (s : Str) :
    Option ((Str × Str × Str × Str × Str × Str × Str) × Nat) :=
  if hdrProductCard.isPrefixOf s then
    match wsGroupPlus (· != '|') (s.drop hdrProductCard.length) with
    | none => none
    | some (g1, r1) =>
      match expectCh '|' r1 with
      | none => none
      | some r2 =>
        match groupPlus (· != '|') r2 with
        | none => none
        | some (g2, r3) =>
          match expectCh '|' r3 with
          | none => none
          | some r4 =>
            match groupPlus (· != '|') r4 with
            | none => none
            | some (g3, r5) =>
              match expectCh '|' r5 with
              | none => none
              | some r6 =>
                match groupPlus (· != '|') r6 with
                | none => none
                | some (g4, r7) =>
                  match expectCh '|' r7 with
                  | none => none
                  | some r8 =>
                    let (g5, r9) := groupStar (· != '|') r8
                    match expectCh '|' r9 with
                    | none => none
                    | some r10 =>
                      let (g6, r11) := groupStar (· != '|') r10
                      match expectCh '|' r11 with
                      | none => none
                      | some r12 =>
                        let (g7, r13) := groupStar (· != ']') r12
                        match expectCh ']' r13 with
                        | none => none
                        | some r14 =>
                          some ((g1, g2, g3, g4, g5, g6, g7), s.length - r14.length)
  else none

/-- Anchored match of `\[COMPARE_PRODUCTS:\s*([^\]]+)\]`. -/
def matchCompare (s : Str) : Option (Str × Nat) :=
  if hdrCompare.isPrefixOf s then
    match wsGroupPlus (· != ']') (s.drop hdrCompare.length) with
    | none => none
    | some (g, r1) =>
      match expectCh ']' r1 with
      | none => none
      | some r2 => some (g, s.length - r2.length)
  else none

/-- Anchored match of
`\[PURCHASE_INTENT:\s*([^|]+)\s*\|\s*([^|]+)\s*\|\s*([^\]]+)\]`. -/
def matchPurchase (s : Str) : Option ((Str × Str × Str) × Nat) :=
  if hdrPurchase.isPrefixOf s then
    match wsGroupPlus (· != '|') (s.drop hdrPurchase.length) with
    | none => none
    | some (g1, r1) =>
      match expectCh '|' r1 with
      | none => none
      | some r2 =>
        match wsGroupPlus (· != '|') r2 with
        | none => none
        | some (g2, r3) =>
          match expectCh '|' r3 with
          | none => none
          | some r4 =>
            match wsGroupPlus (· != ']') r4 with
            | none => none
            | some (g3, r5) =>
              match expectCh ']' r5 with
              | none => none
              | some r6 => some ((g1, g2, g3), s.length - r6.length)
  else none

/-- Anchored match of a defensive pattern `\[TAG:[^\]]+\]` of
`_optimize_for_voice`; `hdr` is the literal `[TAG:` part.  Returns the
length of the matched prefix. -/
def matchBracketTag (hdr : Str) (s : Str) : Option (Unit × Nat) :=
  if hdr.isPrefixOf s then
    match groupPlus (· != ']') (s.drop hdr.length) with
    | none => none
    | some (_, r1) =>
      match expectCh ']' r1 with
      | none => none
      | some r2 => some ((), s.length - r2.length)
  else none

/-- `re.findall`: collect the leftmost non-overlapping matches of an
anchored matcher (our matchers always consume at least one character).
`fuel` bounds the recursion; `scanAll` passes `s.length`, which is always
enough. -/
def scanAllF (f : Str → Option (α × Nat)) : Nat → Str → List α
  | _, [] => []
  | 0, _ => []
  | fuel + 1, c :: s =>
    match f (c :: s) with
    | some (a, n) => a :: scanAllF f fuel (s.drop (n - 1))
    | none => scanAllF f fuel s

/-- `re.findall pattern s`. -/
def scanAll (f : Str → Option (α × Nat)) (s : Str) : List α :=
  scanAllF f s.length s

/-- `re.sub` with an empty replacement: delete the leftmost
non-overlapping matches.  `fuel` as in `scanAllF`. -/
def subAllF (f : Str → Option (α × Nat)) : Nat → Str → Str
  | _, [] => []
  | 0, s => s
  | fuel + 1, c :: s =>
    match f (c :: s) with
    | some (_, n) => subAllF f fuel (s.drop (n - 1))
    | none => c :: subAllF f fuel s

/-- `re.sub pattern <empty> s`. -/
def subAll (f : Str → Option (α × Nat)) (s : Str) : Str :=
  subAllF f s.length s

/-- `re.search`: try an anchored matcher at every position, left to
right. -/
def searchFirst (f : Str → Option α) : Str → Option α
  | [] => none
  | c :: s =>
    match f (c :: s) with
    | some a => some a
    | none => searchFirst f s

/-- Anchored `\$(\d+)`. -/
def matchDollarNum (s : Str) : Option Str :=
  match s with
  | c :: r =>
    if c = '$' then
      let d := r.takeWhile Char.isDigit
      if d.isEmpty then none else some d
    else none
  | [] => none

/-- Anchored `under (\d+)`. -/
def matchUnderNum (s : Str) : Option Str :=
  if "under ".toList.isPrefixOf s then
    let d := (s.drop 6).takeWhile Char.isDigit
    if d.isEmpty then none else some d
  else none

/-- The `.*?(\d+)` tail of `budget.*?(\d+)` and `spend.*?(\d+)`: the lazy
dot skips to the first digit without crossing a newline (`.` does not
match `\n`); the group then takes the maximal digit run. -/
def lazyDigits : Str → Option Str
  | [] => none
  | c :: r =>
    if c.isDigit then some ((c :: r).takeWhile Char.isDigit)
    else if c = '\n' then none
    else lazyDigits r

/-- Anchored `budget.*?(\d+)` / `spend.*?(\d+)`; `lit` is the literal
part. -/
def matchLitLazyNum (lit : Str) (s : Str) : Option Str :=
  if lit.isPrefixOf s then lazyDigits (s.drop lit.length) else none

/-- `(\d+\.?\d*)` with greedy quantifiers, the optional dot taken when
present: capture and remaining input. -/
def numDotNum (s : Str) : Option (Str × Str) :=
  let d1 := s.takeWhile Char.isDigit
  if d1.isEmpty then none
  else
    match s.drop d1.length with
    | '.' :: r2 =>
      let d2 := r2.takeWhile Char.isDigit
      some (d1 ++ '.' :: d2, r2.drop d2.length)
    | r2 => some (d1, r2)

/-- `\s*` followed by a case-insensitive literal that does not start with
whitespace or a digit (so backtracking into the maximal whitespace munch
or into a preceding digit run cannot help). -/
def wsThenCiLit (lit : Str) (s : Str) : Option Str :=
  let r := s.dropWhile pyIsSpace
  if ciIsPrefixOf lit r then some (r.drop lit.length) else none

/-- Anchored `\$(\d+\.?\d*)` (price pattern 1). -/
def matchPrice1 (s : Str) : Option Str :=
  match s with
  | '$' :: r => (numDotNum r).map Prod.fst
  | _ => none

/-- Anchored `Price:\s*\$(\d+\.?\d*)` under `re.IGNORECASE` (price
pattern 2). -/
def matchPrice2 (s : Str) : Option Str :=
  if ciIsPrefixOf "price:".toList s then
    match (s.drop 6).dropWhile pyIsSpace with
    | '$' :: r => (numDotNum r).map Prod.fst
    | _ => none
  else none

/-- Anchored `(\d+\.?\d*)\s*dollars?` under `re.IGNORECASE` (price
pattern 3).  The optional trailing `s` never affects success or the
capture.  When the greedy `\.?` variant fails on the literal, `re`
backtracks to the dotless variant (which can only fail again, since the
dot is neither whitespace nor `d`; both attempts are modelled). -/
def matchPrice3 (s : Str) : Option Str :=
  let d1 := s.takeWhile Char.isDigit
  if d1.isEmpty then none
  else
    match s.drop d1.length with
    | '.' :: r2 =>
      let d2 := r2.takeWhile Char.isDigit
      match wsThenCiLit "dollar".toList (r2.drop d2.length) with
      | some _ => some (d1 ++ '.' :: d2)
      | none =>
        match wsThenCiLit "dollar".toList ('.' :: r2) with
        | some _ => some d1
        | none => none
    | r2 => (wsThenCiLit "dollar".toList r2).map (fun _ => d1)

/-- Anchored `(\d\.?\d*)\s*out of 5 stars` under `re.IGNORECASE` (rating
pattern 1); note the single leading `\d`. -/
def matchRating1 (s : Str) : Option Str :=
  match s with
  | c :: r =>
    if c.isDigit then
      match r with
      | '.' :: r2 =>
        let d2 := r2.takeWhile Char.isDigit
        match wsThenCiLit "out of 5 stars".toList (r2.drop d2.length) with
        | some _ => some (c :: '.' :: d2)
        | none =>
          match wsThenCiLit "out of 5 stars".toList ('.' :: r2) with
          | some _ => some [c]
          | none => none
      | _ => (wsThenCiLit "out of 5 stars".toList r).map (fun _ => [c])
    else none
  | [] => none

/-- Anchored `Rating:\s*(\d\.?\d*)` under `re.IGNORECASE` (rating
pattern 2). -/
def matchRating2 (s : Str) : Option Str :=
  if ciIsPrefixOf "rating:".toList s then
    match (s.drop 7).dropWhile pyIsSpace with
    | c :: r =>
      if c.isDigit then
        match r with
        | '.' :: r2 => some (c :: '.' :: r2.takeWhile Char.isDigit)
        | _ => some [c]
      else none
    | [] => none
  else none

/-- Anchored `(\d\.?\d*)\s*stars?` under `re.IGNORECASE` (rating
pattern 3). -/
def matchRating3 (s : Str) : Option Str :=
  match s with
  | c :: r =>
    if c.isDigit then
      match r with
      | '.' :: r2 =>
        let d2 := r2.takeWhile Char.isDigit
        match wsThenCiLit "star".toList (r2.drop d2.length) with
        | some _ => some (c :: '.' :: d2)
        | none =>
          match wsThenCiLit "star".toList ('.' :: r2) with
          | some _ => some [c]
          | none => none
      | _ => (wsThenCiLit "star".toList r).map (fun _ => [c])
    else none
  | [] => none

/-- Anchored `Amazon\.com:\s*([^|]+)` (title pattern; case sensitive). -/
def matchAmazonName (s : Str) : Option Str :=
  if "Amazon.com:".toList.isPrefixOf s then
    (wsGroupPlus (· != '|') (s.drop 11)).map Prod.fst
  else none

def bulletChar : Char := '•'

/-- The class `[^•\-\*\n]` of the feature pattern. -/
def featOk (c : Char) : Bool :=
  !(c = bulletChar || c = '-' || c = '*' || c = '\n')

/-- Backtracking of `\s*([^•\-\*\n]{10,100})` after the marker: `T` is the
input after the marker and `L` the number of characters currently taken by
the greedy `\s*`, tried from the maximal whitespace run downwards.
Returns the capture and the `\s*` length of the first success. -/
def featTry (T : Str) : Nat → Option (Str × Nat)
  | 0 =>
    let run := T.takeWhile featOk
    if 10 ≤ run.length then some (run.take 100, 0) else none
  | L + 1 =>
    let run := (T.drop (L + 1)).takeWhile featOk
    if 10 ≤ run.length then some (run.take 100, L + 1) else featTry T L

/-- Anchored match of `[•\-\*]\s*([^•\-\*\n]{10,100})` (feature pattern):
capture and length of the matched prefix. -/
def matchFeature (s : Str) : Option (Str × Nat) :=
  match s with
  | c :: r =>
    if c = bulletChar || c = '-' || c = '*' then
      match featTry r (r.takeWhile pyIsSpace).length with
      | some (cap, L) => some (cap, 1 + L + cap.length)
      | none => none
    else none
  | [] => none

/-! ## Dynamically-typed values and the Python operations on them -/

/-- Dynamically-typed Python values as they appear in tool payloads. -/
inductive Value where
  | str (s : Str)
  | num (n : Int)
  | bool (b : Bool)
  | none
  | list (xs : List Value)
  | dict (kvs : List (Str × Value))

/-- The Python exceptions raised by the operations we model. -/
inductive PyErr where
  | typeError
  | attributeError
  | keyError
deriving DecidableEq

/-- Lookup in a Python dict (keys are unique, first binding wins). -/
def dictLookup (kvs : List (Str × Value)) (k : Str) : Option Value :=
  (kvs.find? (fun kv => kv.1 == k)).map Prod.snd

/-- Lookup in an association list modelling a Python dict. -/
def alistLookup {β : Type} (kvs : List (Str × β)) (k : Str) : Option β :=
  (kvs.find? (fun kv => kv.1 == k)).map Prod.snd

/-- Python dict assignment `d[k] = v`: update in place when the key
exists, append otherwise (insertion order preserved). -/
def alistSet {β : Type} (kvs : List (Str × β)) (k : Str) (v : β) : List (Str × β) :=
  if kvs.any (fun kv => kv.1 == k) then
    kvs.map (fun kv => if kv.1 == k then (k, v) else kv)
  else kvs ++ [(k, v)]

/-- `v.get(k, default)` — AttributeError unless `v` is a dict. -/
def vGet (v : Value) (k : Str) (dflt : Value) : Except PyErr Value :=
  match v with
  | .dict kvs => .ok ((dictLookup kvs k).getD dflt)
  | _ => .error .attributeError

/-- `needle in v` for a string needle: substring test on strings, element
test on lists, key test on dicts; TypeError otherwise. -/
def vInStr (needle : Str) (v : Value) : Except PyErr Bool :=
  match v with
  | .str s => .ok (containsSub needle s)
  | .list xs => .ok (xs.any (fun x => match x with | .str s => s == needle | _ => false))
  | .dict kvs => .ok (kvs.any (fun kv => kv.1 == needle))
  | _ => .error .typeError

/-- `re.search(pattern, v)` — TypeError unless `v` is a string. -/
def vSearch {α : Type} (f : Str → Option α) (v : Value) : Except PyErr (Option α) :=
  match v with
  | .str s => .ok (searchFirst f s)
  | _ => .error .typeError

/-- `re.findall(pattern, v)` — TypeError unless `v` is a string. -/
def vFindAll {α : Type} (f : Str → Option (α × Nat)) (v : Value) :
    Except PyErr (List α) :=
  match v with
  | .str s => .ok (scanAll f s)
  | _ => .error .typeError

/-- `v.lower()` — AttributeError unless `v` is a string. -/
def vLower (v : Value) : Except PyErr Str :=
  match v with
  | .str s => .ok (pyLower s)
  | _ => .error .attributeError

/-- `url.split("?")[0].split("/ref=")[0]` on a plain string. -/
def cleanStr (u : Str) : Str :=
  takeBeforeSub ("/ref=".toList) (takeBeforeSub ("?".toList) u)

/-- `url.split("?")[0].split("/ref=")[0]` — AttributeError unless `url`
is a string. -/
def vCleanUrl (v : Value) : Except PyErr Str :=
  match v with
  | .str s => .ok (cleanStr s)
  | _ => .error .attributeError

/-- `for x in v`: lists yield their elements, strings their characters
(as one-character strings), dicts their keys; TypeError otherwise. -/
def vIter (v : Value) : Except PyErr (List Value) :=
  match v with
  | .list xs => .ok xs
  | .str s => .ok (s.map (fun c => Value.str [c]))
  | .dict kvs => .ok (kvs.map (fun kv => Value.str kv.1))
  | _ => .error .typeError

/-! ## Data model -/

/-- A product record as built by `_extract_enhanced_product_info`.  The
`url` is stored exactly as taken from the scraped block, hence a
`Value`. -/
structure Product where
  url : Value
  name : Str
  price : Str
  rating : Str
  key_features : List Str
  availability : Str
  prime_eligible : Bool

/-- The record returned by `detect_user_intent`. -/
structure Intent where
  purchase_intent : Bool
  comparison_request : Bool
  budget_mentioned : Option Nat

/-- The mutable `shopping_session` dictionary.  `purchase_intent` and
`user_preferences` are initialized but never written by the modelled
functions; `conversation_context` is appended to only by `chat`, which is
outside the modelled core (it drives the external chat API). -/
structure ShoppingSession where
  products_viewed : List Product
  user_preferences : List (Str × Value)
  budget_range : Option Nat
  comparison_mode : Bool
  purchase_intent : Option Value
  conversation_context : List (Str × Intent)

/-- The agent state touched by the modelled functions: the scratch
product mapping and the shopping session (the `messages` transcript and
the external API clients of `__init__` are outside the modelled core). -/
structure AgentState where
  current_products : List (Str × Product)
  shopping_session : ShoppingSession

/-- The session contents installed by `__init__` and `reset`. -/
def freshSession : ShoppingSession :=
  { products_viewed := []
    user_preferences := []
    budget_range := Option.none
    comparison_mode := false
    purchase_intent := Option.none
    conversation_context := [] }

/-- `reset`: clears the product mapping and the shopping session (the
`messages` transcript, also reset there, is outside the modelled
state). -/
def reset (_st : AgentState) : AgentState :=
  { current_products := [], shopping_session := freshSession }

/-! ## extract_links -/

/-- The url filter of `extract_links` specialized to string urls. -/
def filterStr (u : Str) : Bool :=
  containsSub ("amazon.com".toList) u &&
    (containsSub ("/dp/".toList) u || containsSub ("/gp/product/".toList) u) &&
    !containsSub ("/s?".toList) u && !containsSub ("/b?".toList) u

/-- The filter on a candidate url in `extract_links`, in source order
with Python short-circuit evaluation: `"amazon.com" in url and ("/dp/" in
url or "/gp/product/" in url) and "/s?" not in url and "/b?" not in
url`. -/
def linkFilter (url : Value) : Except PyErr Bool := do
  let c1 ← vInStr ("amazon.com".toList) url
  if !c1 then return false
  let c2 ← vInStr ("/dp/".toList) url
  let c3 ← if c2 then pure true else vInStr ("/gp/product/".toList) url
  if !c3 then return false
  let c4 ← vInStr ("/s?".toList) url
  if c4 then return false
  let c5 ← vInStr ("/b?".toList) url
  return !c5

/-- The accumulation loop of `extract_links`. -/
def extractLinksLoop : List Value → List Str → Except PyErr (List Str)
  | [], acc => .ok acc
  | item :: rest, acc => do
    let url ← vGet item ("url".toList) (Value.str [])
    let ok ← linkFilter url
    if ok then
      let clean ← vCleanUrl url
      extractLinksLoop rest (acc ++ [clean])
    else
      extractLinksLoop rest acc

/-- `extract_links`: up to 5 unique cleaned Amazon product links from a
search payload.  `list(set(...))` enumerates a CPython set, whose order
is unspecified; it is modelled with `List.dedup` (every property proved
about the result is independent of the enumeration order). -/
def extract_links (result : Value) : Except PyErr (List Str) := do
  let data ← vGet result ("data".toList) (Value.dict [])
  let web ← vGet data ("web".toList) (Value.dict [])
  let webResults ← vGet web ("results".toList) (Value.list [])
  let items ← vIter webResults
  let links ← extractLinksLoop items []
  return (links.dedup).take 5

/-! ## Product extraction -/

/-- The default product record built at the top of
`_extract_enhanced_product_info`. -/
def defaultProduct (url : Value) : Product :=
  { url := url
    name := "Amazon Product".toList
    price := "Price not found".toList
    rating := "Rating not found".toList
    key_features := []
    availability := "Check Amazon".toList
    prime_eligible := false }

/-- The sentinel product returned by the `except` branch of
`_extract_enhanced_product_info`. -/
def fallbackProduct (url : Value) : Product :=
  { url := url
    name := "Amazon Product".toList
    price := "See Amazon".toList
    rating := "N/A".toList
    key_features := []
    availability := "Check Amazon".toList
    prime_eligible := false }

/-- The body of `_extract_enhanced_product_info`'s `try`, raising exactly
where Python raises when `content` is not a string. -/
def extractEnhancedBody (content url : Value) : Except PyErr Product := do
  let p0 := defaultProduct url
  let hasAmz ← vInStr ("Amazon.com:".toList) content
  let p1 ←
    if hasAmz then do
      let m ← vSearch matchAmazonName content
      match m with
      | some g => pure { p0 with name := pyStrip g }
      | Option.none => pure p0
    else pure p0
  let pm1 ← vSearch matchPrice1 content
  let priceCap ←
    match pm1 with
    | some g => pure (some g)
    | Option.none => do
      let pm2 ← vSearch matchPrice2 content
      match pm2 with
      | some g => pure (some g)
      | Option.none => vSearch matchPrice3 content
  let p2 :=
    match priceCap with
    | some g => { p1 with price := '$' :: g }
    | Option.none => p1
  let rm1 ← vSearch matchRating1 content
  let ratingCap ←
    match rm1 with
    | some g => pure (some g)
    | Option.none => do
      let rm2 ← vSearch matchRating2 content
      match rm2 with
      | some g => pure (some g)
      | Option.none => vSearch matchRating3 content
  let p3 :=
    match ratingCap with
    | some g => { p2 with rating := g ++ "/5 stars".toList }
    | Option.none => p2
  let low ← vLower content
  let p4 ←
    if containsSub ("features".toList) low || containsSub ("specifications".toList) low then do
      let fs ← vFindAll matchFeature content
      pure { p3 with key_features := fs.take 3 }
    else pure p3
  let prime := containsSub ("prime".toList) low &&
    (containsSub ("eligible".toList) low || containsSub ("free".toList) low)
  return { p4 with prime_eligible := prime }

/-- `_extract_enhanced_product_info`: total, its `except` branch returns
the sentinel product. -/
def extractEnhancedProductInfo (content url : Value) : Product :=
  match extractEnhancedBody content url with
  | .ok p => p
  | .error _ => fallbackProduct url

/-- Little-endian decimal digits of `n`, with explicit fuel (`n` itself
is always enough). -/
def natDigitsF : Nat → Nat → List Nat
  | 0, _ => []
  | fuel + 1, n => if n = 0 then [] else n % 10 :: natDigitsF fuel (n / 10)

/-- Little-endian decimal digits of `n` (empty for 0). -/
def natDigits (n : Nat) : List Nat := natDigitsF n n

/-- Decimal rendering `str(n)` of a positive natural number (the
`product_{i+1}` keys always use `n ≥ 1`). -/
def natToStr (n : Nat) : Str :=
  ((natDigits n).map (fun d => Char.ofNat (48 + d))).reverse

/-- Little-endian decimal decoding (used only to prove `natToStr`
injective). -/
def undigits : List Nat → Nat
  | [] => 0
  | d :: ds => d + 10 * undigits ds

/-- Decode a decimal rendering (used only to prove `natToStr`
injective). -/
def strDecode (s : Str) : Nat :=
  undigits (s.reverse.map (fun c => c.toNat - 48))

/-- The synthetic key `product_<i>`. -/
def productKey (i : Nat) : Str := "product_".toList ++ natToStr i

/-- The `for i, result in enumerate(results)` loop of
`extract_product_info`; non-dict blocks are skipped but still advance the
index. -/
def extractProductLoop (st : AgentState) (i : Nat) : List Value → AgentState
  | [] => st
  | r :: rest =>
    match r with
    | .dict kvs =>
      let url := (dictLookup kvs ("url".toList)).getD (Value.str [])
      let content := (dictLookup kvs ("content".toList)).getD (Value.str [])
      let pinfo := extractEnhancedProductInfo content url
      let st' : AgentState :=
        { current_products := alistSet st.current_products (productKey (i + 1)) pinfo
          shopping_session := { st.shopping_session with
            products_viewed := st.shopping_session.products_viewed ++ [pinfo] } }
      extractProductLoop st' (i + 1) rest
    | _ => extractProductLoop st (i + 1) rest

/-- The body of `extract_product_info`'s `try` (the `isinstance` checks,
`'data' in scraped_data`, indexing, and the block loop; `if
product_info:` is always true since the built dict is nonempty).  No
operation in it can raise — the inner extractor catches its own
failures — so the result is always `ok`; an error would carry the
partially mutated state, as Python mutations persist past a raise. -/
def extractProductInfoBody (st : AgentState) (scraped : Value) :
    Except (PyErr × AgentState) AgentState :=
  match scraped with
  | .dict kvs =>
    match dictLookup kvs ("data".toList) with
    | some (.list results) => .ok (extractProductLoop st 0 results)
    | _ => .ok st
  | _ => .ok st

/-- `extract_product_info`: the `except` branch only logs, keeping the
mutations made before the failure. -/
def extract_product_info (st : AgentState) (scraped : Value) : AgentState :=
  match extractProductInfoBody st scraped with
  | .ok s => s
  | .error (_, s) => s

/-! ## detect_user_intent -/

/-- An apostrophe (written via its code point to keep source literals
plain). -/
def apoCh : Char := Char.ofNat 39

/-- The purchase keyword list. -/
def purchase_keywords : List Str :=
  ["buy".toList, "purchase".toList, "order".toList, "i want".toList,
   "i".toList ++ [apoCh] ++ "ll take".toList, "add to cart".toList,
   "checkout".toList]

/-- The comparison keyword list. -/
def comparison_keywords : List Str :=
  ["compare".toList, "difference".toList, "which is better".toList,
   "vs".toList, "versus".toList]

/-- The budget-extraction loop: the four patterns `\$(\d+)`,
`under (\d+)`, `budget.*?(\d+)`, `spend.*?(\d+)` in order; the first
pattern that matches wins (`break`). -/
def budgetSearch (low : Str) : Option Nat :=
  match searchFirst matchDollarNum low with
  | some d => some (digitsToNat d)
  | Option.none =>
    match searchFirst matchUnderNum low with
    | some d => some (digitsToNat d)
    | Option.none =>
      match searchFirst (matchLitLazyNum ("budget".toList)) low with
      | some d => some (digitsToNat d)
      | Option.none =>
        match searchFirst (matchLitLazyNum ("spend".toList)) low with
        | some d => some (digitsToNat d)
        | Option.none => Option.none

/-- `detect_user_intent`: the intent record and the updated session (the
budget write-through on `budget_range`). -/
def detect_user_intent (session : ShoppingSession) (user_input : Str) :
    Intent × ShoppingSession :=
  let low := pyLower user_input
  let intent : Intent :=
    { purchase_intent := purchase_keywords.any (fun k => containsSub k low)
      comparison_request := comparison_keywords.any (fun k => containsSub k low)
      budget_mentioned := budgetSearch low }
  match intent.budget_mentioned with
  | some n => (intent, { session with budget_range := some n })
  | Option.none => (intent, session)

/-! ## Voice optimizer and annotation parser -/

/-- The enumerated-list markers dropped by `_optimize_for_voice`. -/
def lineMarkers : List Str :=
  ["1.".toList, "2.".toList, "3.".toList, "4.".toList, "5.".toList,
   [bulletChar], ['-']]

/-- `line.startswith(('1.', ..., '5.', '•', '-'))`. -/
def startsMarker (l : Str) : Bool :=
  lineMarkers.any (fun m => m.isPrefixOf l)

/-- The line-filtering stage: strip each line, drop empty lines and lines
starting with a list marker. -/
def voiceLines (text : Str) : List Str :=
  ((pySplitCh '\n' text).map pyStrip).filter (fun l => !l.isEmpty && !startsMarker l)

/-- The replacement table of `_optimize_for_voice`, in source (insertion)
order. -/
def replacements : List (Str × Str) :=
  [("I apologize".toList, "Sorry about that".toList),
   ("Could you please".toList, "Can you".toList),
   ("I would be happy to".toList, "I".toList ++ [apoCh] ++ "d love to".toList),
   ("assistance".toList, "help".toList),
   ("purchase".toList, "buy".toList),
   ("provide me with".toList, "tell me".toList),
   ("information".toList, "info".toList),
   ("however".toList, "but".toList),
   ("therefore".toList, "so".toList),
   ("additionally".toList, "also".toList),
   ("Furthermore".toList, "Plus".toList),
   ("In order to".toList, "To".toList),
   ("I recommend".toList, "I".toList ++ [apoCh] ++ "d suggest".toList),
   ("specifications".toList, "details".toList),
   ("http".toList, []),
   ("www.".toList, []),
   ("amazon.com".toList, "Amazon".toList)]

/-- The four defensive `\[TAG:[^\]]+\]` deletions, each followed by
`.strip()`. -/
def defensiveSubs (s : Str) : Str :=
  let s1 := pyStrip (subAll (matchBracketTag hdrDisplayLink) s)
  let s2 := pyStrip (subAll (matchBracketTag hdrProductCard) s1)
  let s3 := pyStrip (subAll (matchBracketTag hdrCompare) s2)
  pyStrip (subAll (matchBracketTag hdrPurchase) s3)

/-- The sentence-truncation stage: split on `.`; when more than 4 parts
remain, keep the first 3 joined by `. ` and re-append a period. -/
def truncSentences (s : Str) : Str :=
  let sentences := pySplitCh '.' s
  if 4 < sentences.length then pyJoin (". ".toList) (sentences.take 3) ++ ['.']
  else s

/-- `_optimize_for_voice`. -/
def _optimize_for_voice (text : Str) : Str :=
  let result := pyJoin [' '] (voiceLines text)
  let result := defensiveSubs result
  let result := replacements.foldl (fun r kv => pyReplace kv.1 kv.2 r) result
  pyStrip (truncSentences result)

/-- An extracted `{name, url}` link. -/
structure DisplayLink where
  name : Str
  url : Str
deriving DecidableEq

/-- An extracted product card. -/
structure ProductCard where
  name : Str
  url : Str
  price : Str
  rating : Str
  feature1 : Str
  feature2 : Str
  image_hint : Str
deriving DecidableEq

/-- An extracted purchase-intent payload. -/
structure PurchaseData where
  product_name : Str
  url : Str
  price : Str
deriving DecidableEq

/-- The result of `process_response_for_enhanced_features`. -/
structure ProcessedResponse where
  spoken_text : Str
  links_to_display : List DisplayLink
  product_cards : List ProductCard
  comparison_data : Option Str
  purchase_intent_data : Option PurchaseData

/-- `process_response_for_enhanced_features`: `re.findall` each of the
four directive patterns on the raw text (links and cards keep all
matches, comparison and purchase data take `matches[0]`), then delete all
four patterns from the spoken text, in the insertion order of the
`patterns` dict, and voice-optimize it. -/
def process_response_for_enhanced_features (response_text : Str) : ProcessedResponse :=
  let dlMatches := scanAll matchDisplayLink response_text
  let pcMatches := scanAll matchProductCard response_text
  let cpMatches := scanAll matchCompare response_text
  let piMatches := scanAll matchPurchase response_text
  let links := dlMatches.map (fun g =>
    { name := pyStrip g.1, url := pyStrip g.2 : DisplayLink })
  let cards := pcMatches.map (fun g =>
    { name := pyStrip g.1
      url := pyStrip g.2.1
      price := pyStrip g.2.2.1
      rating := pyStrip g.2.2.2.1
      feature1 := if g.2.2.2.2.1.isEmpty then [] else pyStrip g.2.2.2.2.1
      feature2 := if g.2.2.2.2.2.1.isEmpty then [] else pyStrip g.2.2.2.2.2.1
      image_hint := if g.2.2.2.2.2.2.isEmpty then [] else pyStrip g.2.2.2.2.2.2
      : ProductCard })
  let spoken0 := subAll matchDisplayLink response_text
  let spoken1 := subAll matchProductCard spoken0
  let spoken2 := subAll matchCompare spoken1
  let spoken3 := subAll matchPurchase spoken2
  { spoken_text := _optimize_for_voice spoken3
    links_to_display := links
    product_cards := cards
    comparison_data := cpMatches.head?
    purchase_intent_data := piMatches.head?.map (fun g =>
      { product_name := pyStrip g.1, url := pyStrip g.2.1, price := pyStrip g.2.2
        : PurchaseData }) }

/-! ## Concrete directive instances and claim-level predicates -/

/-- A well-formed DISPLAY_LINK directive (used by the claim theorems). -/
def dl1 : Str := "[DISPLAY_LINK: Mouse | m.com/1]".toList

def dl2 : Str := "[DISPLAY_LINK: Pad | m.com/2]".toList

/-- A well-formed PRODUCT_CARD directive with all seven fields. -/
def pc1 : Str := "[PRODUCT_CARD: Mouse|m.com/1|$10|4.5|wireless|light|photo]".toList

/-- A well-formed PRODUCT_CARD directive with the last three fields
empty. -/
def pc2 : Str := "[PRODUCT_CARD: Pad|m.com/2|$20|4.0|||]".toList

def cp1 : Str := "[COMPARE_PRODUCTS: Mouse vs Pad]".toList

def cp2 : Str := "[COMPARE_PRODUCTS: Pad vs Mouse]".toList

def pi1 : Str := "[PURCHASE_INTENT: Mouse | m.com/1 | $10]".toList

def pi2 : Str := "[PURCHASE_INTENT: Pad | m.com/2 | $20]".toList

/-- `s` contains no substring matching any of the four directive
grammars: no grammar matches at any start position. -/
def NoDirective (s : Str) : Prop :=
  ∀ i : Nat, matchDisplayLink (s.drop i) = none ∧ matchProductCard (s.drop i) = none ∧
    matchCompare (s.drop i) = none ∧ matchPurchase (s.drop i) = none

/-- No replacement key of `_optimize_for_voice` occurs in `s`. -/
def keysFree (s : Str) : Bool :=
  replacements.all (fun kv => !(containsSub kv.1 s))

/-- A scrape payload whose single block carries no url field (claim C6). -/
def scrapedNoUrl : Value :=
  Value.dict [("data".toList, Value.list [Value.dict [("content".toList, Value.str [])]])]

/-- A first scrape batch with two blocks (claim C7). -/
def batchA : Value :=
  Value.dict [("data".toList, Value.list
    [Value.dict [("url".toList, Value.str ("a1".toList)), ("content".toList, Value.str [])],
     Value.dict [("url".toList, Value.str ("a2".toList)), ("content".toList, Value.str [])]])]

/-- A second, smaller scrape batch with one block (claim C7). -/
def batchB : Value :=
  Value.dict [("data".toList, Value.list
    [Value.dict [("url".toList, Value.str ("b1".toList)), ("content".toList, Value.str [])]])]

/-- The empty agent state. -/
def st0 : AgentState := { current_products := [], shopping_session := freshSession }

/-- A search payload with three detail-page urls that differ only by query
string or referral suffix, one search url, one non-Amazon url and one
gp/product url (claim C9). -/
def searchResA : Value :=
  Value.dict [("data".toList, Value.dict [("web".toList, Value.dict [("results".toList,
    Value.list
      [Value.dict [("url".toList, Value.str ("https://amazon.com/dp/A1?tag=x".toList))],
       Value.dict [("url".toList, Value.str ("https://amazon.com/dp/A1?tag=y".toList))],
       Value.dict [("url".toList, Value.str ("https://amazon.com/dp/A1/ref=sr_1?k=2".toList))],
       Value.dict [("url".toList, Value.str ("https://amazon.com/s?k=mouse".toList))],
       Value.dict [("url".toList, Value.str ("https://example.com/dp/A9".toList))],
       Value.dict [("url".toList, Value.str ("https://amazon.com/gp/product/B2".toList))]])])])]

/-- The Product built from one (dict) scraped block, as in the loop body
of `extract_product_info`. -/
def blockProduct : Value → Product
  | Value.dict bkvs =>
    extractEnhancedProductInfo
      ((dictLookup bkvs ("content".toList)).getD (Value.str []))
      ((dictLookup bkvs ("url".toList)).getD (Value.str []))
  | _ => fallbackProduct Value.none

/-- A model response carrying two COMPARE_PRODUCTS, two PURCHASE_INTENT,
two PRODUCT_CARD and two DISPLAY_LINK directives, separated by arbitrary
segments (claims C1 and C2). -/
def c1Text (s0 s1 s2 s3 s4 s5 s6 s7 s8 : Str) : Str :=
  s0 ++ cp1 ++ s1 ++ cp2 ++ s2 ++ pi1 ++ s3 ++ pi2 ++ s4 ++ pc1 ++ s5 ++
    pc2 ++ s6 ++ dl1 ++ s7 ++ dl2 ++ s8

/-- The head-guard property shared by all directive matchers: no match
can start anywhere but at a `[`. -/
def HeadGuard (f : Str → Option (α × Nat)) : Prop :=
  ∀ (c : Char) (s : Str), c ≠ '[' → f (c :: s) = none

/-! ## Toolkit: fuel irrelevance and step equations for the drivers -/

theorem subAllF_fuel (f : Str → Option (α × Nat)) :
    ∀ (fuel₁ fuel₂ : Nat) (s : Str), s.length ≤ fuel₁ → s.length ≤ fuel₂ →
      subAllF f fuel₁ s = subAllF f fuel₂ s := by
  intro fuel₁
  induction fuel₁ with
  | zero =>
    intro fuel₂ s h₁ _
    have : s = [] := List.length_eq_zero.mp (Nat.le_zero.mp h₁)
    subst this
    cases fuel₂ <;> rfl
  | succ n ih =>
    intro fuel₂ s h₁ h₂
    cases s with
    | nil => cases fuel₂ <;> rfl
    | cons c s =>
      cases fuel₂ with
      | zero => exact absurd h₂ (by simp)
      | succ m =>
        show (match f (c :: s) with
              | some (_, k) => subAllF f n (s.drop (k - 1))
              | none => c :: subAllF f n s) =
             (match f (c :: s) with
              | some (_, k) => subAllF f m (s.drop (k - 1))
              | none => c :: subAllF f m s)
        have hs₁ : s.length ≤ n := Nat.le_of_succ_le_succ h₁
        have hs₂ : s.length ≤ m := Nat.le_of_succ_le_succ h₂
        cases f (c :: s) with
        | some a =>
          exact ih m (s.drop (a.2 - 1))
            (Nat.le_trans (by simpa using List.length_drop_le (a.2 - 1) s) hs₁)
            (Nat.le_trans (by simpa using List.length_drop_le (a.2 - 1) s) hs₂)
        | none => rw [ih m s hs₁ hs₂]

theorem scanAllF_fuel (f : Str → Option (α × Nat)) :
    ∀ (fuel₁ fuel₂ : Nat) (s : Str), s.length ≤ fuel₁ → s.length ≤ fuel₂ →
      scanAllF f fuel₁ s = scanAllF f fuel₂ s := by
  intro fuel₁
  induction fuel₁ with
  | zero =>
    intro fuel₂ s h₁ _
    have : s = [] := List.length_eq_zero.mp (Nat.le_zero.mp h₁)
    subst this
    cases fuel₂ <;> rfl
  | succ n ih =>
    intro fuel₂ s h₁ h₂
    cases s with
    | nil => cases fuel₂ <;> rfl
    | cons c s =>
      cases fuel₂ with
      | zero => exact absurd h₂ (by simp)
      | succ m =>
        show (match f (c :: s) with
              | some (a, k) => a :: scanAllF f n (s.drop (k - 1))
              | none => scanAllF f n s) =
             (match f (c :: s) with
              | some (a, k) => a :: scanAllF f m (s.drop (k - 1))
              | none => scanAllF f m s)
        have hs₁ : s.length ≤ n := Nat.le_of_succ_le_succ h₁
        have hs₂ : s.length ≤ m := Nat.le_of_succ_le_succ h₂
        cases f (c :: s) with
        | some a =>
          obtain ⟨a, k⟩ := a
          show a :: scanAllF f n (s.drop (k - 1)) = a :: scanAllF f m (s.drop (k - 1))
          rw [ih m (s.drop (k - 1))
            (Nat.le_trans (by rw [List.length_drop]; omega) hs₁)
            (Nat.le_trans (by rw [List.length_drop]; omega) hs₂)]
        | none => exact ih m s hs₁ hs₂

theorem subAll_nil (f : Str → Option (α × Nat)) : subAll f [] = [] := rfl

theorem subAll_cons_none {f : Str → Option (α × Nat)} {c : Char} {s : Str}
    (h : f (c :: s) = none) : subAll f (c :: s) = c :: subAll f s := by
  show subAllF f (s.length + 1) (c :: s) = c :: subAllF f s.length s
  show (match f (c :: s) with
        | some (_, k) => subAllF f s.length (s.drop (k - 1))
        | none => c :: subAllF f s.length s) = _
  rw [h]

theorem subAll_cons_some {f : Str → Option (α × Nat)} {c : Char} {s : Str}
    {a : α} {n : Nat} (h : f (c :: s) = some (a, n)) :
    subAll f (c :: s) = subAll f (s.drop (n - 1)) := by
  show subAllF f (s.length + 1) (c :: s) = subAllF f (s.drop (n - 1)).length (s.drop (n - 1))
  show (match f (c :: s) with
        | some (_, k) => subAllF f s.length (s.drop (k - 1))
        | none => c :: subAllF f s.length s) = _
  rw [h]
  exact subAllF_fuel f s.length (s.drop (n - 1)).length (s.drop (n - 1))
    (by simpa using List.length_drop_le (n - 1) s) (Nat.le_refl _)

theorem scanAll_nil (f : Str → Option (α × Nat)) : scanAll f [] = [] := rfl

theorem scanAll_cons_none {f : Str → Option (α × Nat)} {c : Char} {s : Str}
    (h : f (c :: s) = none) : scanAll f (c :: s) = scanAll f s := by
  show scanAllF f (s.length + 1) (c :: s) = scanAllF f s.length s
  show (match f (c :: s) with
        | some (a, k) => a :: scanAllF f s.length (s.drop (k - 1))
        | none => scanAllF f s.length s) = _
  rw [h]

theorem scanAll_cons_some {f : Str → Option (α × Nat)} {c : Char} {s : Str}
    {a : α} {n : Nat} (h : f (c :: s) = some (a, n)) :
    scanAll f (c :: s) = a :: scanAll f (s.drop (n - 1)) := by
  show scanAllF f (s.length + 1) (c :: s) = a :: scanAllF f (s.drop (n - 1)).length (s.drop (n - 1))
  show (match f (c :: s) with
        | some (a, k) => a :: scanAllF f s.length (s.drop (k - 1))
        | none => scanAllF f s.length s) = _
  rw [h]
  show a :: scanAllF f s.length (s.drop (n - 1)) = _
  rw [scanAllF_fuel f s.length (s.drop (n - 1)).length (s.drop (n - 1))
    (by rw [List.length_drop]; omega) (Nat.le_refl _)]

/-! ## Toolkit: head guards and append laws for the directive matchers -/

/-- A directive match can only start at a `[`. -/
theorem matchDisplayLink_none_of_head {c : Char} (s : Str) (h : c ≠ '[') :
    matchDisplayLink (c :: s) = none := by
  have : hdrDisplayLink.isPrefixOf (c :: s) = false := by
    simp [hdrDisplayLink, List.isPrefixOf]
    exact fun hc => absurd hc.symm h
  simp [matchDisplayLink, this]

theorem matchProductCard_none_of_head {c : Char} (s : Str) (h : c ≠ '[') :
    matchProductCard (c :: s) = none := by
  have : hdrProductCard.isPrefixOf (c :: s) = false := by
    simp [hdrProductCard, List.isPrefixOf]
    exact fun hc => absurd hc.symm h
  simp [matchProductCard, this]

theorem matchCompare_none_of_head {c : Char} (s : Str) (h : c ≠ '[') :
    matchCompare (c :: s) = none := by
  have : hdrCompare.isPrefixOf (c :: s) = false := by
    simp [hdrCompare, List.isPrefixOf]
    exact fun hc => absurd hc.symm h
  simp [matchCompare, this]

theorem matchPurchase_none_of_head {c : Char} (s : Str) (h : c ≠ '[') :
    matchPurchase (c :: s) = none := by
  have : hdrPurchase.isPrefixOf (c :: s) = false := by
    simp [hdrPurchase, List.isPrefixOf]
    exact fun hc => absurd hc.symm h
  simp [matchPurchase, this]

theorem matchBracketTag_none_of_head {c d : Char} {t : Str} (s : Str) (h : c ≠ d) :
    matchBracketTag (d :: t) (c :: s) = none := by
  have : (d :: t).isPrefixOf (c :: s) = false := by
    simp [List.isPrefixOf]
    intro hdc
    exact absurd hdc.symm h
  simp [matchBracketTag, this]

theorem headGuard_matchDisplayLink : HeadGuard matchDisplayLink :=
  fun _ s h => matchDisplayLink_none_of_head s h

theorem headGuard_matchProductCard : HeadGuard matchProductCard :=
  fun _ s h => matchProductCard_none_of_head s h

theorem headGuard_matchCompare : HeadGuard matchCompare :=
  fun _ s h => matchCompare_none_of_head s h

theorem headGuard_matchPurchase : HeadGuard matchPurchase :=
  fun _ s h => matchPurchase_none_of_head s h

theorem headGuard_matchBracketTag (t : Str) : HeadGuard (matchBracketTag ('[' :: t)) :=
  fun _ s h => matchBracketTag_none_of_head s h

/-- `re.sub` walks over a bracket-free prefix unchanged. -/
theorem subAll_append_of_nolb {f : Str → Option (α × Nat)} (hg : HeadGuard f)
    {x : Str} (z : Str) (hx : '[' ∉ x) : subAll f (x ++ z) = x ++ subAll f z := by
  induction x with
  | nil => rfl
  | cons c x ih =>
    have hc : c ≠ '[' := by
      intro hc
      exact hx (hc ▸ List.mem_cons_self c x)
    have hx' : '[' ∉ x := fun h => hx (List.mem_cons_of_mem c h)
    rw [List.cons_append, subAll_cons_none (hg c (x ++ z) hc), ih hx', List.cons_append]

/-- `re.sub` leaves a bracket-free string unchanged. -/
theorem subAll_eq_self_of_nolb {f : Str → Option (α × Nat)} (hg : HeadGuard f)
    {s : Str} (hs : '[' ∉ s) : subAll f s = s := by
  have := subAll_append_of_nolb hg [] hs
  simpa [subAll_nil] using this

/-- `re.findall` finds nothing in a bracket-free prefix. -/
theorem scanAll_append_of_nolb {f : Str → Option (α × Nat)} (hg : HeadGuard f)
    {x : Str} (z : Str) (hx : '[' ∉ x) : scanAll f (x ++ z) = scanAll f z := by
  induction x with
  | nil => rfl
  | cons c x ih =>
    have hc : c ≠ '[' := by
      intro hc
      exact hx (hc ▸ List.mem_cons_self c x)
    have hx' : '[' ∉ x := fun h => hx (List.mem_cons_of_mem c h)
    rw [List.cons_append, scanAll_cons_none (hg c (x ++ z) hc), ih hx']

/-- `re.findall` finds nothing in a bracket-free string. -/
theorem scanAll_eq_nil_of_nolb {f : Str → Option (α × Nat)} (hg : HeadGuard f)
    {s : Str} (hs : '[' ∉ s) : scanAll f s = [] := by
  have := scanAll_append_of_nolb hg [] hs
  simpa [scanAll_nil] using this

/-- Walking over a chunk (a directive of another kind) that does not match
`f` at its head and is bracket-free after its head. -/
theorem subAll_chunk {f : Str → Option (α × Nat)} (hg : HeadGuard f)
    {d : Str} (z : Str) (h0 : f (d ++ z) = none) (hne : d ≠ [])
    (htl : '[' ∉ d.tail) : subAll f (d ++ z) = d ++ subAll f z := by
  cases d with
  | nil => exact absurd rfl hne
  | cons c t =>
    have htl' : '[' ∉ t := htl
    rw [List.cons_append, subAll_cons_none (by rw [← List.cons_append]; exact h0),
      subAll_append_of_nolb hg z htl', List.cons_append]

theorem scanAll_chunk {f : Str → Option (α × Nat)} (hg : HeadGuard f)
    {d : Str} (z : Str) (h0 : f (d ++ z) = none) (hne : d ≠ [])
    (htl : '[' ∉ d.tail) : scanAll f (d ++ z) = scanAll f z := by
  cases d with
  | nil => exact absurd rfl hne
  | cons c t =>
    have htl' : '[' ∉ t := htl
    rw [List.cons_append, scanAll_cons_none (by rw [← List.cons_append]; exact h0),
      scanAll_append_of_nolb hg z htl']

/-- Consuming a matched directive `d` at the head of the input. -/
theorem subAll_consume {f : Str → Option (α × Nat)} {d : Str} (z : Str)
    {a : α} (h : f (d ++ z) = some (a, d.length)) (hne : d ≠ []) :
    subAll f (d ++ z) = subAll f z := by
  cases d with
  | nil => exact absurd rfl hne
  | cons c t =>
    rw [List.cons_append, subAll_cons_some (by rw [← List.cons_append]; exact h)]
    have hdz : (t ++ z).drop ((c :: t).length - 1) = z := by
      simp [List.drop_append_of_le_length]
    rw [hdz]

theorem scanAll_consume {f : Str → Option (α × Nat)} {d : Str} (z : Str)
    {a : α} (h : f (d ++ z) = some (a, d.length)) (hne : d ≠ []) :
    scanAll f (d ++ z) = a :: scanAll f z := by
  cases d with
  | nil => exact absurd rfl hne
  | cons c t =>
    rw [List.cons_append, scanAll_cons_some (by rw [← List.cons_append]; exact h)]
    have hdz : (t ++ z).drop ((c :: t).length - 1) = z := by
      simp [List.drop_append_of_le_length]
    rw [hdz]

/-! ## Toolkit: membership preservation -/

theorem mem_of_mem_subAllF {f : Str → Option (α × Nat)} {c : Char} :
    ∀ (fuel : Nat) (s : Str), c ∈ subAllF f fuel s → c ∈ s := by
  intro fuel
  induction fuel with
  | zero =>
    intro s h
    cases s with
    | nil => exact absurd h (by simp [subAllF])
    | cons d s => exact h
  | succ n ih =>
    intro s h
    cases s with
    | nil => exact absurd h (by simp [subAllF])
    | cons d s =>
      revert h
      show c ∈ (match f (d :: s) with
        | some (_, k) => subAllF f n (s.drop (k - 1))
        | none => d :: subAllF f n s) → _
      cases f (d :: s) with
      | some a =>
        intro h
        exact List.mem_cons_of_mem d (List.mem_of_mem_drop (ih _ h))
      | none =>
        intro h
        rcases List.mem_cons.mp h with h | h
        · exact h ▸ List.mem_cons_self d s
        · exact List.mem_cons_of_mem d (ih s h)

theorem mem_of_mem_subAll {f : Str → Option (α × Nat)} {c : Char} {s : Str}
    (h : c ∈ subAll f s) : c ∈ s :=
  mem_of_mem_subAllF s.length s h

theorem mem_of_mem_pyStrip {c : Char} {s : Str} (h : c ∈ pyStrip s) : c ∈ s := by
  unfold pyStrip at h
  rw [List.mem_reverse] at h
  have h₁ := (List.dropWhile_sublist (l := (s.dropWhile pyIsSpace).reverse) pyIsSpace).mem h
  rw [List.mem_reverse] at h₁
  exact (List.dropWhile_sublist pyIsSpace).mem h₁

theorem mem_of_mem_pyReplaceF {old new : Str} {c : Char} :
    ∀ (fuel : Nat) (s : Str), c ∈ pyReplaceF old new fuel s → c ∈ s ∨ c ∈ new := by
  intro fuel
  induction fuel with
  | zero =>
    intro s h
    cases s with
    | nil => exact absurd h (by simp [pyReplaceF])
    | cons d s => exact Or.inl h
  | succ n ih =>
    intro s h
    cases s with
    | nil => exact absurd h (by simp [pyReplaceF])
    | cons d s =>
      revert h
      show c ∈ (if old.isPrefixOf (d :: s) && !old.isEmpty then
          new ++ pyReplaceF old new n (s.drop (old.length - 1))
        else d :: pyReplaceF old new n s) → _
      split
      · intro h
        rcases List.mem_append.mp h with h | h
        · exact Or.inr h
        · rcases ih _ h with h | h
          · exact Or.inl (List.mem_cons_of_mem d (List.mem_of_mem_drop h))
          · exact Or.inr h
      · intro h
        rcases List.mem_cons.mp h with h | h
        · exact Or.inl (h ▸ List.mem_cons_self d s)
        · rcases ih s h with h | h
          · exact Or.inl (List.mem_cons_of_mem d h)
          · exact Or.inr h

theorem mem_of_mem_pyReplace {old new : Str} {c : Char} {s : Str}
    (h : c ∈ pyReplace old new s) : c ∈ s ∨ c ∈ new :=
  mem_of_mem_pyReplaceF s.length s h

/-! ## Toolkit: split, join, strip, replace -/

theorem pySplitCh_cons (sep c : Char) (s : Str) :
    pySplitCh sep (c :: s) =
      (match pySplitCh sep s with
       | [] => [[]]
       | r :: rs => if c = sep then [] :: r :: rs else (c :: r) :: rs) := rfl

theorem pySplitCh_cons_eq {sep c : Char} {s r : Str} {rs : List Str}
    (hps : pySplitCh sep s = r :: rs) :
    pySplitCh sep (c :: s) = if c = sep then [] :: r :: rs else (c :: r) :: rs := by
  rw [pySplitCh_cons, hps]

theorem pySplitCh_ne_nil (sep : Char) (s : Str) : pySplitCh sep s ≠ [] := by
  induction s with
  | nil => simp [pySplitCh]
  | cons c s ih =>
    rcases hps : pySplitCh sep s with _ | ⟨r, rs⟩
    · exact absurd hps ih
    · rw [pySplitCh_cons_eq hps]
      by_cases hc : c = sep <;> simp [hc]

theorem pySplitCh_of_not_mem {sep : Char} {s : Str} (h : sep ∉ s) :
    pySplitCh sep s = [s] := by
  induction s with
  | nil => rfl
  | cons c s ih =>
    have hc : c ≠ sep := fun hc => h (hc ▸ List.mem_cons_self c s)
    have hs : sep ∉ s := fun hs => h (List.mem_cons_of_mem c hs)
    rw [pySplitCh_cons_eq (ih hs), if_neg hc]

theorem not_mem_of_mem_pySplitCh {sep : Char} :
    ∀ {s l : Str}, l ∈ pySplitCh sep s → sep ∉ l := by
  intro s
  induction s with
  | nil =>
    intro l hl
    simp [pySplitCh] at hl
    simp [hl]
  | cons c s ih =>
    intro l hl
    rcases hps : pySplitCh sep s with _ | ⟨r, rs⟩
    · exact absurd hps (pySplitCh_ne_nil sep s)
    · rw [pySplitCh_cons_eq hps] at hl
      by_cases hc : c = sep
      · rw [if_pos hc] at hl
        rcases List.mem_cons.mp hl with h | h
        · simp [h]
        · exact ih (hps ▸ h)
      · rw [if_neg hc] at hl
        rcases List.mem_cons.mp hl with h | h
        · subst h
          intro hmem
          rcases List.mem_cons.mp hmem with h | h
          · exact hc h.symm
          · exact ih (hps ▸ List.mem_cons_self r rs) h
        · exact ih (hps ▸ List.mem_cons_of_mem r h)

theorem mem_of_mem_pySplitCh {sep c : Char} :
    ∀ {s l : Str}, l ∈ pySplitCh sep s → c ∈ l → c ∈ s := by
  intro s
  induction s with
  | nil =>
    intro l hl hc
    simp [pySplitCh] at hl
    subst hl
    exact absurd hc (List.not_mem_nil c)
  | cons d s ih =>
    intro l hl hc
    rcases hps : pySplitCh sep s with _ | ⟨r, rs⟩
    · exact absurd hps (pySplitCh_ne_nil sep s)
    · rw [pySplitCh_cons_eq hps] at hl
      by_cases hd : d = sep
      · rw [if_pos hd] at hl
        rcases List.mem_cons.mp hl with h | h
        · subst h
          exact absurd hc (List.not_mem_nil c)
        · exact List.mem_cons_of_mem _ (ih (hps ▸ h) hc)
      · rw [if_neg hd] at hl
        rcases List.mem_cons.mp hl with h | h
        · subst h
          rcases List.mem_cons.mp hc with h | h
          · exact h ▸ List.mem_cons_self d s
          · exact List.mem_cons_of_mem _ (ih (hps ▸ List.mem_cons_self r rs) h)
        · exact List.mem_cons_of_mem _ (ih (hps ▸ List.mem_cons_of_mem r h) hc)

theorem length_pySplitCh (sep : Char) (s : Str) :
    (pySplitCh sep s).length = s.count sep + 1 := by
  induction s with
  | nil => simp [pySplitCh]
  | cons c s ih =>
    rcases hps : pySplitCh sep s with _ | ⟨r, rs⟩
    · exact absurd hps (pySplitCh_ne_nil sep s)
    · rw [pySplitCh_cons_eq hps]
      by_cases hc : c = sep
      · subst hc
        rw [if_pos rfl, List.length_cons, ← hps, ih, List.count_cons_self]
      · rw [if_neg hc]
        have hlen : ((c :: r) :: rs : List Str).length = (r :: rs).length := by simp
        rw [hlen, ← hps, ih, List.count_cons_of_ne (fun h => hc h.symm)]

theorem mem_of_mem_pyJoin {sep : Str} {c : Char} :
    ∀ {xs : List Str}, c ∈ pyJoin sep xs → c ∈ sep ∨ ∃ l ∈ xs, c ∈ l := by
  intro xs
  induction xs with
  | nil =>
    intro h
    exact absurd h (List.not_mem_nil c)
  | cons x ys ih =>
    cases ys with
    | nil =>
      intro h
      exact Or.inr ⟨x, List.mem_cons_self x [], h⟩
    | cons y zs =>
      intro h
      rcases List.mem_append.mp h with h | h
      · rcases List.mem_append.mp h with h | h
        · exact Or.inr ⟨x, List.mem_cons_self x _, h⟩
        · exact Or.inl h
      · rcases ih h with h | ⟨l, hl, hc⟩
        · exact Or.inl h
        · exact Or.inr ⟨l, List.mem_cons_of_mem x hl, hc⟩

theorem count_dropWhile_of_not {p : Char → Bool} {c : Char} (h : p c = false) :
    ∀ l : Str, (l.dropWhile p).count c = l.count c := by
  intro l
  induction l with
  | nil => rfl
  | cons d l ih =>
    by_cases hd : p d
    · have hcd : c ≠ d := by
        intro hcd
        rw [hcd] at h
        exact absurd h (by simp [hd])
      rw [List.dropWhile_cons_of_pos hd, ih, List.count_cons_of_ne hcd]
    · rw [List.dropWhile_cons_of_neg hd]

theorem count_pyStrip {c : Char} (h : pyIsSpace c = false) (s : Str) :
    (pyStrip s).count c = s.count c := by
  unfold pyStrip
  rw [List.count_reverse, count_dropWhile_of_not h, List.count_reverse,
    count_dropWhile_of_not h]

theorem dropWhile_dropWhile (p : Char → Bool) (l : Str) :
    (l.dropWhile p).dropWhile p = l.dropWhile p := by
  induction l with
  | nil => rfl
  | cons c l ih =>
    by_cases hc : p c
    · rw [List.dropWhile_cons_of_pos hc, ih]
    · rw [List.dropWhile_cons_of_neg hc, List.dropWhile_cons_of_neg hc]

theorem head_dropWhile_false {p : Char → Bool} :
    ∀ (l : Str) {c : Char} {t : Str}, l.dropWhile p = c :: t → p c = false := by
  intro l
  induction l with
  | nil =>
    intro c t h
    exact absurd h (by simp)
  | cons d l ih =>
    intro c t h
    by_cases hd : p d
    · rw [List.dropWhile_cons_of_pos hd] at h
      exact ih h
    · rw [List.dropWhile_cons_of_neg hd] at h
      cases h
      simpa using hd

theorem dropWhile_eq_self_of_head {p : Char → Bool} {l : Str}
    (h : ∀ c t, l = c :: t → p c = false) : l.dropWhile p = l := by
  cases l with
  | nil => rfl
  | cons c t => exact List.dropWhile_cons_of_neg (by simp [h c t rfl])

/-- The result of `pyStrip` has no leading whitespace. -/
theorem pyStrip_nofront (s : Str) :
    (pyStrip s).dropWhile pyIsSpace = pyStrip s := by
  apply dropWhile_eq_self_of_head
  intro c t h
  unfold pyStrip at h
  have h2 : (s.dropWhile pyIsSpace).reverse.dropWhile pyIsSpace = t.reverse ++ [c] := by
    have h1 := congrArg List.reverse h
    rwa [List.reverse_reverse, List.reverse_cons] at h1
  have h3 : (s.dropWhile pyIsSpace).reverse =
      (s.dropWhile pyIsSpace).reverse.takeWhile pyIsSpace ++ (t.reverse ++ [c]) := by
    conv_lhs => rw [← List.takeWhile_append_dropWhile
      (p := pyIsSpace) (l := (s.dropWhile pyIsSpace).reverse)]
    rw [h2]
  set W := (s.dropWhile pyIsSpace).reverse.takeWhile pyIsSpace with hW
  have h4 : s.dropWhile pyIsSpace = c :: (t ++ W.reverse) := by
    have h5 := congrArg List.reverse h3
    rw [List.reverse_reverse] at h5
    rw [h5, List.reverse_append, List.reverse_append, List.reverse_reverse]
    simp
  exact head_dropWhile_false s h4

/-- The result of `pyStrip` has no trailing whitespace. -/
theorem pyStrip_noback (s : Str) :
    (pyStrip s).reverse.dropWhile pyIsSpace = (pyStrip s).reverse := by
  unfold pyStrip
  rw [List.reverse_reverse]
  exact dropWhile_dropWhile pyIsSpace _

theorem pyStrip_idem (s : Str) : pyStrip (pyStrip s) = pyStrip s := by
  show ((((pyStrip s).dropWhile pyIsSpace).reverse).dropWhile pyIsSpace).reverse = _
  rw [pyStrip_nofront, pyStrip_noback, List.reverse_reverse]

theorem pyReplaceF_of_not_contains {old new : Str} :
    ∀ (fuel : Nat) (s : Str), containsSub old s = false →
      pyReplaceF old new fuel s = s := by
  intro fuel
  induction fuel with
  | zero =>
    intro s _
    cases s <;> rfl
  | succ n ih =>
    intro s h
    cases s with
    | nil => rfl
    | cons c s =>
      have h1 : old.isPrefixOf (c :: s) = false := by
        cases hh : old.isPrefixOf (c :: s)
        · rfl
        · unfold containsSub at h
          rw [hh] at h
          simp at h
      have h2 : containsSub old s = false := by
        cases hh : containsSub old s
        · rfl
        · unfold containsSub at h
          rw [hh] at h
          simp at h
      show (if old.isPrefixOf (c :: s) && !old.isEmpty then
          new ++ pyReplaceF old new n (s.drop (old.length - 1))
        else c :: pyReplaceF old new n s) = c :: s
      rw [h1]
      simp only [Bool.false_and, Bool.false_eq_true, if_false]
      rw [ih s h2]

theorem pyReplace_of_not_contains {old new s : Str}
    (h : containsSub old s = false) : pyReplace old new s = s :=
  pyReplaceF_of_not_contains s.length s h

theorem searchFirst_append_of_guard {f : Str → Option α}
    {x : Str} (z : Str) (hg : ∀ (c : Char) (r : Str), c ∈ x → f (c :: r) = none) :
    searchFirst f (x ++ z) = searchFirst f z := by
  induction x with
  | nil => rfl
  | cons c x ih =>
    show (match f (c :: (x ++ z)) with
      | some a => some a
      | none => searchFirst f (x ++ z)) = _
    rw [hg c (x ++ z) (List.mem_cons_self c x)]
    exact ih (fun d r hd => hg d r (List.mem_cons_of_mem c hd))

theorem takeWhile_append_of_all {p : Char → Bool} :
    ∀ {t : Str} (y : Str), (∀ c ∈ t, p c = true) →
      (t ++ y).takeWhile p = t ++ y.takeWhile p := by
  intro t
  induction t with
  | nil => intro y _; rfl
  | cons c t ih =>
    intro y h
    rw [List.cons_append, List.takeWhile_cons_of_pos (h c (List.mem_cons_self c t)),
      ih y (fun d hd => h d (List.mem_cons_of_mem c hd)), List.cons_append]

theorem dropWhile_append_of_all {p : Char → Bool} :
    ∀ {t : Str} (y : Str), (∀ c ∈ t, p c = true) →
      (t ++ y).dropWhile p = y.dropWhile p := by
  intro t
  induction t with
  | nil => intro y _; rfl
  | cons c t ih =>
    intro y h
    rw [List.cons_append, List.dropWhile_cons_of_pos (h c (List.mem_cons_self c t)),
      ih y (fun d hd => h d (List.mem_cons_of_mem c hd))]

/-! ## Toolkit: search steps and intent helpers -/

theorem searchFirst_cons_some {f : Str → Option α} {c : Char} {s : Str} {a : α}
    (h : f (c :: s) = some a) : searchFirst f (c :: s) = some a := by
  show (match f (c :: s) with
    | some a => some a
    | none => searchFirst f s) = some a
  rw [h]

theorem searchFirst_cons_none {f : Str → Option α} {c : Char} {s : Str}
    (h : f (c :: s) = none) : searchFirst f (c :: s) = searchFirst f s := by
  show (match f (c :: s) with
    | some a => some a
    | none => searchFirst f s) = searchFirst f s
  rw [h]

theorem matchDollarNum_none_of_head {c : Char} (s : Str) (h : c ≠ '$') :
    matchDollarNum (c :: s) = none := by
  simp [matchDollarNum, h]

theorem detect_fst_budget (session : ShoppingSession) (input : Str) :
    (detect_user_intent session input).1.budget_mentioned =
      budgetSearch (pyLower input) := by
  unfold detect_user_intent
  cases h : budgetSearch (pyLower input) <;> simp [h]

theorem detect_snd_budget_some (session : ShoppingSession) {input : Str} {n : Nat}
    (h : budgetSearch (pyLower input) = some n) :
    (detect_user_intent session input).2.budget_range = some n := by
  unfold detect_user_intent
  simp [h]

theorem budgetSearch_of_dollar {low : Str} {d : Str}
    (h : searchFirst matchDollarNum low = some d) :
    budgetSearch low = some (digitsToNat d) := by
  unfold budgetSearch
  rw [h]

/-! ## Claim C5 -/

/-- C5: the budget patterns are tried in the fixed order `\$(\d+)`,
`under (\d+)`, `budget.*?(\d+)`, `spend.*?(\d+)` with the first match
winning (that order is the definition of `budgetSearch`); in particular,
whenever the `\$(\d+)` pattern matches the lowered utterance with capture
`d`, the returned intent has `budget_mentioned = int(d)` and the session
`budget_range` is immediately overwritten to the same value, regardless of
whether the later patterns also match. -/
theorem c5_dollar_pattern_priority (session : ShoppingSession) (input d : Str)
    (h : searchFirst matchDollarNum (pyLower input) = some d) :
    (detect_user_intent session input).1.budget_mentioned = some (digitsToNat d) ∧
    (detect_user_intent session input).2.budget_range = some (digitsToNat d) :=
  ⟨(detect_fst_budget session input).trans (budgetSearch_of_dollar h),
   detect_snd_budget_some session (budgetSearch_of_dollar h)⟩

/-- Witness for C5 at the utterance `i want $50 but under 30`, where both
the dollar pattern and the `under` pattern match; the dollar capture
wins. -/
theorem c5_witness :
    (detect_user_intent freshSession ("i want $50 but under 30".toList)).1.budget_mentioned =
      some 50 ∧
    (detect_user_intent freshSession ("i want $50 but under 30".toList)).2.budget_range =
      some 50 := by
  have h := c5_dollar_pattern_priority freshSession ("i want $50 but under 30".toList)
    ("50".toList) (by decide)
  have h50 : digitsToNat ("50".toList) = 50 := by decide
  rw [h50] at h
  exact h

/-! ## Claim C10 -/

/-- C10: a decimal dollar amount is captured only up to the decimal
point: for any utterance `a ++ "$19.99" ++ b` whose lowered prefix `a`
contains no `$`, the detector reports a budget of 19 (the integer part),
and writes 19 into the session `budget_range`. -/
theorem c10_budget_decimal_integer_part (session : ShoppingSession) (a b : Str)
    (ha : '$' ∉ pyLower a) :
    (detect_user_intent session (a ++ "$19.99".toList ++ b)).1.budget_mentioned = some 19 ∧
    (detect_user_intent session (a ++ "$19.99".toList ++ b)).2.budget_range = some 19 := by
  have hmap : pyLower (a ++ "$19.99".toList ++ b) =
      pyLower a ++ ("$19.99".toList ++ pyLower b) := by
    unfold pyLower
    rw [List.append_assoc, List.map_append, List.map_append]
    have : List.map pyLowerChar ("$19.99".toList) = "$19.99".toList := by decide
    rw [this]
  have hguard : ∀ (c : Char) (r : Str), c ∈ pyLower a → matchDollarNum (c :: r) = none :=
    fun c r hc => matchDollarNum_none_of_head r (fun h => ha (h ▸ hc))
  have hmatch : matchDollarNum ("$19.99".toList ++ pyLower b) = some ("19".toList) := rfl
  have hsearch : searchFirst matchDollarNum (pyLower (a ++ "$19.99".toList ++ b)) =
      some ("19".toList) := by
    rw [hmap, searchFirst_append_of_guard _ hguard]
    show searchFirst matchDollarNum ('$' :: ("19.99".toList ++ pyLower b)) = _
    exact searchFirst_cons_some hmatch
  have h := c5_dollar_pattern_priority session (a ++ "$19.99".toList ++ b) ("19".toList)
    hsearch
  have h19 : digitsToNat ("19".toList) = 19 := by decide
  rw [h19] at h
  exact h

/-- Witness for C10: `it costs $19.99 today` yields a budget of 19. -/
theorem c10_witness :
    (detect_user_intent freshSession ("it costs $19.99 today".toList)).1.budget_mentioned =
      some 19 ∧
    (detect_user_intent freshSession ("it costs $19.99 today".toList)).2.budget_range =
      some 19 := by
  have h := c10_budget_decimal_integer_part freshSession ("it costs ".toList)
    (" today".toList) (by decide)
  exact h

/-! ## Claim C1: counterexample -/

/-- C1 counterexample: with two COMPARE_PRODUCTS and two PURCHASE_INTENT
directives in one model response, the parser keeps the FIRST occurrence of
each (`matches[0]`), not the last as the claim states. -/
theorem c1_counterexample :
    (process_response_for_enhanced_features
      ("x [COMPARE_PRODUCTS: AAA] y [COMPARE_PRODUCTS: BBB] z [PURCHASE_INTENT: a | b | c] w [PURCHASE_INTENT: d | e | f]".toList)).comparison_data =
        some ("AAA".toList) ∧
    (process_response_for_enhanced_features
      ("x [COMPARE_PRODUCTS: AAA] y [COMPARE_PRODUCTS: BBB] z [PURCHASE_INTENT: a | b | c] w [PURCHASE_INTENT: d | e | f]".toList)).comparison_data ≠
        some ("BBB".toList) ∧
    (process_response_for_enhanced_features
      ("x [COMPARE_PRODUCTS: AAA] y [COMPARE_PRODUCTS: BBB] z [PURCHASE_INTENT: a | b | c] w [PURCHASE_INTENT: d | e | f]".toList)).purchase_intent_data =
        some { product_name := "a".toList, url := "b".toList, price := "c".toList } ∧
    (process_response_for_enhanced_features
      ("x [COMPARE_PRODUCTS: AAA] y [COMPARE_PRODUCTS: BBB] z [PURCHASE_INTENT: a | b | c] w [PURCHASE_INTENT: d | e | f]".toList)).purchase_intent_data ≠
        some { product_name := "d".toList, url := "e".toList, price := "f".toList } := by
  exact ⟨rfl, by decide, rfl, by decide⟩

/-! ## Claim C4: counterexample -/

/-- C4 counterexample: a PRODUCT_CARD directive that truly omits the last
three fields (and their pipe separators) is NOT extracted at all — the
grammar requires all six pipes — contradicting the claim that such a
directive still yields a card with empty-string fields.  (The directive is
nevertheless deleted from the spoken text by the defensive pass.) -/
theorem c4_counterexample :
    (process_response_for_enhanced_features
      ("[PRODUCT_CARD: Mouse|m.com/1|$10|4.5]".toList)).product_cards = [] ∧
    (process_response_for_enhanced_features
      ("[PRODUCT_CARD: Mouse|m.com/1|$10|4.5]".toList)).spoken_text = [] := by
  exact ⟨rfl, rfl⟩

/-! ## Claim C3: counterexample -/

/-- C3 counterexample: the Voice Optimizer is not idempotent.  On
`htwww.tp`, the first pass deletes `www.` and thereby splices the
replacement key `http`, which only the second pass deletes:
`optimize(x) = "http"` but `optimize(optimize(x)) = ""`. -/
theorem c3_counterexample :
    _optimize_for_voice ("htwww.tp".toList) = "http".toList ∧
    _optimize_for_voice (_optimize_for_voice ("htwww.tp".toList)) ≠
      _optimize_for_voice ("htwww.tp".toList) := by
  exact ⟨rfl, by decide⟩

/-! ## Claim C6: counterexample -/

/-- C6 counterexample: a scraped block with no `url` field produces a
Product whose url is the empty string (the `result.get('url', '')`
default), which is appended to `products_viewed`; so not every created
Product has a non-empty url. -/
theorem c6_counterexample :
    (extract_product_info st0 scrapedNoUrl).shopping_session.products_viewed =
      [defaultProduct (Value.str [])] ∧
    ¬ (∀ p ∈ (extract_product_info st0 scrapedNoUrl).shopping_session.products_viewed,
        ∃ u, p.url = Value.str u ∧ u ≠ []) := by
  refine ⟨rfl, fun h => ?_⟩
  have hmem : defaultProduct (Value.str []) ∈
      (extract_product_info st0 scrapedNoUrl).shopping_session.products_viewed := by
    rw [(rfl : (extract_product_info st0 scrapedNoUrl).shopping_session.products_viewed =
      [defaultProduct (Value.str [])])]
    exact List.mem_cons_self _ _
  rcases h (defaultProduct (Value.str [])) hmem with ⟨u, hu, hune⟩
  have hu' : Value.str [] = Value.str u := hu
  have heq : ([] : Str) = u := by injection hu'
  exact hune heq.symm

/-! ## Claim C7: counterexample -/

/-- C7 counterexample: the `product_i` mapping is NOT scoped to the
current batch.  After a two-product batch followed by a one-product
batch, the mapping still contains the stale `product_2` entry of the
first batch (`current_products` is never cleared between batches, only by
`reset`), so it does not contain exactly the products of the last
batch. -/
theorem c7_counterexample :
    (alistLookup (extract_product_info (extract_product_info st0 batchA) batchB).current_products
        (productKey 2)).map Product.url = some (Value.str ("a2".toList)) ∧
    (alistLookup (extract_product_info (extract_product_info st0 batchA) batchB).current_products
        (productKey 1)).map Product.url = some (Value.str ("b1".toList)) ∧
    (extract_product_info (extract_product_info st0 batchA) batchB).current_products.length = 2 := by
  exact ⟨rfl, rfl, rfl⟩

/-! ## Toolkit: reduction of Except binds -/

theorem except_bind_ok {ε α β : Type} (a : α) (f : α → Except ε β) :
    (Bind.bind (Except.ok a : Except ε α) f) = f a := rfl

theorem except_bind_error {ε α β : Type} (e : ε) (f : α → Except ε β) :
    (Bind.bind (Except.error e : Except ε α) f) = Except.error e := rfl

/-! ## Claim C2: counterexample -/

/-- C2 counterexample: one directive deletion can splice the surrounding
text into a new directive, and only one defensive pass follows; with two
levels of splicing, the final spoken text still contains a full
DISPLAY_LINK directive, contradicting the claim that no directive marker
ever survives processing. -/
theorem c2_counterexample :
    (process_response_for_enhanced_features
      ("[DISP[DISP[DISPLAY_LINK: x | y]LAY_LINK: x | y]LAY_LINK: a | b]".toList)).spoken_text =
      "[DISPLAY_LINK: a | b]".toList ∧
    ¬ NoDirective ((process_response_for_enhanced_features
      ("[DISP[DISP[DISPLAY_LINK: x | y]LAY_LINK: x | y]LAY_LINK: a | b]".toList)).spoken_text) := by
  refine ⟨rfl, fun h => ?_⟩
  exact (by decide : ¬ (matchDisplayLink (((process_response_for_enhanced_features
    ("[DISP[DISP[DISPLAY_LINK: x | y]LAY_LINK: x | y]LAY_LINK: a | b]".toList)).spoken_text).drop 0) =
      none)) (h 0).1

/-! ## Claim C8 -/

theorem extractProductInfoBody_ok (st : AgentState) (scraped : Value) :
    ∃ st', extractProductInfoBody st scraped = .ok st' := by
  unfold extractProductInfoBody
  rcases scraped with s | n | b | _ | xs | kvs
  · exact ⟨st, rfl⟩
  · exact ⟨st, rfl⟩
  · exact ⟨st, rfl⟩
  · exact ⟨st, rfl⟩
  · exact ⟨st, rfl⟩
  · show ∃ st', (match dictLookup kvs ("data".toList) with
      | some (Value.list results) =>
        (Except.ok (extractProductLoop st 0 results) : Except (PyErr × AgentState) AgentState)
      | _ => Except.ok st) = .ok st'
    rcases dictLookup kvs ("data".toList) with _ | v
    · exact ⟨st, rfl⟩
    · rcases v with s | n | b | _ | results | kvs2
      · exact ⟨st, rfl⟩
      · exact ⟨st, rfl⟩
      · exact ⟨st, rfl⟩
      · exact ⟨st, rfl⟩
      · exact ⟨extractProductLoop st 0 results, rfl⟩
      · exact ⟨st, rfl⟩

theorem extractEnhanced_fallback_of_not_str {content : Value} (url : Value)
    (h : ∀ s : Str, content ≠ Value.str s) :
    extractEnhancedProductInfo content url = fallbackProduct url := by
  rcases content with s | n | b | _ | xs | kvs
  · exact absurd rfl (h s)
  · rfl
  · rfl
  · rfl
  · unfold extractEnhancedProductInfo extractEnhancedBody
    simp only [vInStr]
    cases hAm : xs.any (fun x => match x with
      | Value.str s => s == "Amazon.com:".toList
      | _ => false) <;>
      simp [hAm, vSearch, Bind.bind, Except.bind, pure, Except.pure]
  · unfold extractEnhancedProductInfo extractEnhancedBody
    simp only [vInStr]
    cases hAm : kvs.any (fun kv => kv.1 == "Amazon.com:".toList) <;>
      simp [hAm, vSearch, Bind.bind, Except.bind, pure, Except.pure]

/-- C8: the product extractor never propagates an exception: the batch
body always returns normally (the only fallible operations sit inside the
inner extractor, which catches its own failures); and any block whose
content is not a string — the failure the inner `try` guards — degrades to
the sentinel-filled fallback Product instead of aborting. -/
theorem c8_extraction_never_raises (st : AgentState) (scraped : Value)
    (content url : Value) :
    (∃ st', extractProductInfoBody st scraped = .ok st') ∧
    ((∀ s : Str, content ≠ Value.str s) →
      extractEnhancedProductInfo content url = fallbackProduct url) :=
  ⟨extractProductInfoBody_ok st scraped,
   fun h => extractEnhanced_fallback_of_not_str url h⟩

/-- Witness for C8: a numeric content block degrades to the fallback
Product. -/
theorem c8_witness :
    (∃ st', extractProductInfoBody st0 scrapedNoUrl = .ok st') ∧
    extractEnhancedProductInfo (Value.num 3) (Value.str ("u".toList)) =
      fallbackProduct (Value.str ("u".toList)) := by
  have h := c8_extraction_never_raises st0 scrapedNoUrl (Value.num 3)
    (Value.str ("u".toList))
  exact ⟨h.1, h.2 (fun s hs => Value.noConfusion hs)⟩

/-! ## Claim C9 -/

theorem mem_of_mem_takeBeforeSub {sep : Str} {c : Char} :
    ∀ {s : Str}, c ∈ takeBeforeSub sep s → c ∈ s := by
  intro s
  induction s with
  | nil => intro h; exact absurd h (List.not_mem_nil c)
  | cons d s ih =>
    intro h
    unfold takeBeforeSub at h
    by_cases hp : sep.isPrefixOf (d :: s)
    · rw [if_pos hp] at h
      exact absurd h (List.not_mem_nil c)
    · rw [if_neg hp] at h
      rcases List.mem_cons.mp h with h | h
      · exact h ▸ List.mem_cons_self d s
      · exact List.mem_cons_of_mem d (ih h)

theorem not_mem_takeBeforeSub_single (c : Char) :
    ∀ (s : Str), c ∉ takeBeforeSub [c] s := by
  intro s
  induction s with
  | nil => exact List.not_mem_nil c
  | cons d s ih =>
    unfold takeBeforeSub
    by_cases hp : List.isPrefixOf [c] (d :: s)
    · rw [if_pos hp]
      exact List.not_mem_nil c
    · rw [if_neg hp]
      intro h
      rcases List.mem_cons.mp h with h | h
      · apply hp
        subst h
        simp [List.isPrefixOf]
      · exact ih h

theorem takeBeforeSub_append (sep : Str) :
    ∀ (s : Str), ∃ rest, takeBeforeSub sep s ++ rest = s := by
  intro s
  induction s with
  | nil => exact ⟨[], rfl⟩
  | cons d s ih =>
    unfold takeBeforeSub
    by_cases hp : sep.isPrefixOf (d :: s)
    · rw [if_pos hp]
      exact ⟨d :: s, rfl⟩
    · rw [if_neg hp]
      rcases ih with ⟨rest, hrest⟩
      exact ⟨rest, by rw [List.cons_append, hrest]⟩

theorem isPrefixOf_append_mono {l x : Str} (y : Str) (h : l.isPrefixOf x = true) :
    l.isPrefixOf (x ++ y) = true := by
  induction l generalizing x with
  | nil => simp [List.isPrefixOf]
  | cons a as ih =>
    cases x with
    | nil => simp [List.isPrefixOf] at h
    | cons b bs =>
      rw [List.isPrefixOf] at h
      rcases Bool.and_eq_true_iff.mp h with ⟨hab, hrest⟩
      rw [List.cons_append, List.isPrefixOf, hab, ih hrest]
      rfl

theorem containsSub_takeBeforeSub_false {sep : Str} (hsep : sep ≠ []) :
    ∀ (s : Str), containsSub sep (takeBeforeSub sep s) = false := by
  intro s
  induction s with
  | nil =>
    show containsSub sep [] = false
    unfold containsSub
    simpa using hsep
  | cons d s ih =>
    unfold takeBeforeSub
    by_cases hp : sep.isPrefixOf (d :: s)
    · rw [if_pos hp]
      unfold containsSub
      simpa using hsep
    · rw [if_neg hp]
      unfold containsSub
      rw [ih]
      suffices hpre : sep.isPrefixOf (d :: takeBeforeSub sep s) = false by
        rw [hpre]
        rfl
      cases hpre : sep.isPrefixOf (d :: takeBeforeSub sep s)
      · rfl
      · exfalso
        rcases takeBeforeSub_append sep s with ⟨rest, hrest⟩
        apply hp
        have := isPrefixOf_append_mono rest hpre
        rwa [List.cons_append, hrest] at this

theorem linkFilter_str (u : Str) : linkFilter (Value.str u) = .ok (filterStr u) := by
  unfold linkFilter filterStr
  simp only [vInStr]
  cases h1 : containsSub ("amazon.com".toList) u <;>
    cases h2 : containsSub ("/dp/".toList) u <;>
      cases h3 : containsSub ("/gp/product/".toList) u <;>
        cases h4 : containsSub ("/s?".toList) u <;>
          cases h5 : containsSub ("/b?".toList) u <;>
            simp [h1, h2, h3, h4, h5, Bind.bind, Except.bind, pure, Except.pure]

/-- The property carried by every accumulated link: it is the cleaned
form of some url that passed the filter. -/
def CleanLink (l : Str) : Prop :=
  ∃ u, filterStr u = true ∧ l = cleanStr u

theorem extractLinksLoop_invariant :
    ∀ (items : List Value) (acc links : List Str),
      extractLinksLoop items acc = .ok links →
      (∀ l ∈ acc, CleanLink l) → ∀ l ∈ links, CleanLink l := by
  intro items
  induction items with
  | nil =>
    intro acc links h hacc
    have : acc = links := by
      simpa [extractLinksLoop] using h
    exact this ▸ hacc
  | cons item rest ih =>
    intro acc links h hacc
    rw [extractLinksLoop] at h
    rcases hu : vGet item ("url".toList) (Value.str []) with e | url <;> rw [hu] at h
    · rw [except_bind_error] at h
      cases h
    · rw [except_bind_ok] at h
      try simp only [] at h
      rcases hf : linkFilter url with e | b <;> rw [hf] at h
      · rw [except_bind_error] at h
        cases h
      · rw [except_bind_ok] at h
        try simp only [] at h
        cases b with
        | false =>
          simp only [Bool.false_eq_true, if_false] at h
          exact ih acc links h hacc
        | true =>
          simp only [if_true] at h
          rcases hc : vCleanUrl url with e | clean <;> rw [hc] at h
          · rw [except_bind_error] at h
            cases h
          · rw [except_bind_ok] at h
            try simp only [] at h
            rcases url with su | n | bb | _ | xs | kvs
            · have hclean : clean = cleanStr su := by
                have h' := hc
                simp [vCleanUrl] at h'
                exact h'.symm
              have hfs : filterStr su = true := by
                have h' := hf
                rw [linkFilter_str] at h'
                have := Except.ok.inj h'
                exact this
              refine ih (acc ++ [clean]) links h ?_
              intro l hl
              rcases List.mem_append.mp hl with hl | hl
              · exact hacc l hl
              · have hlc : l = clean := by simpa using hl
                exact hlc ▸ ⟨su, hfs, hclean⟩
            all_goals simp [vCleanUrl] at hc

/-- C9: whenever `extract_links` returns normally, the result holds at
most 5 pairwise-distinct links, each the query- and referral-stripped
(`?`-free, `/ref=`-free) form of a url that passed the Amazon
detail-page filter; duplicates that differ only by query string collapse
to one entry. -/
theorem c9_links_dedup_capped (result : Value) (links : List Str)
    (h : extract_links result = .ok links) :
    links.length ≤ 5 ∧ links.Nodup ∧
    ∀ l ∈ links, ('?' ∉ l) ∧ containsSub ("/ref=".toList) l = false ∧ CleanLink l := by
  rw [extract_links] at h
  rcases h1 : vGet result ("data".toList) (Value.dict []) with e | data <;> rw [h1] at h
  · rw [except_bind_error] at h
    cases h
  · rw [except_bind_ok] at h
    try simp only [] at h
    rcases h2 : vGet data ("web".toList) (Value.dict []) with e | web <;> rw [h2] at h
    · rw [except_bind_error] at h
      cases h
    · rw [except_bind_ok] at h
      try simp only [] at h
      rcases h3 : vGet web ("results".toList) (Value.list []) with e | webResults <;>
        rw [h3] at h
      · rw [except_bind_error] at h
        cases h
      · rw [except_bind_ok] at h
        try simp only [] at h
        rcases h4 : vIter webResults with e | items <;> rw [h4] at h
        · rw [except_bind_error] at h
          cases h
        · rw [except_bind_ok] at h
          try simp only [] at h
          rcases h5 : extractLinksLoop items [] with e | ls <;> rw [h5] at h
          · rw [except_bind_error] at h
            cases h
          · rw [except_bind_ok] at h
            have hlinks : links = ls.dedup.take 5 := by
              simpa [pure, Except.pure] using h.symm
            have hinv : ∀ l ∈ ls, CleanLink l :=
              extractLinksLoop_invariant items [] ls h5 (by intro l hl; cases hl)
            subst hlinks
            refine ⟨List.length_take_le 5 _, ?_, ?_⟩
            · exact (List.nodup_dedup ls).sublist (List.take_sublist 5 _)
            · intro l hl
              have hmem : l ∈ ls := List.mem_dedup.mp (List.mem_of_mem_take hl)
              rcases hinv l hmem with ⟨u, hfu, hcu⟩
              subst hcu
              refine ⟨?_, ?_, ⟨u, hfu, rfl⟩⟩
              · intro hq
                exact not_mem_takeBeforeSub_single '?' u (mem_of_mem_takeBeforeSub hq)
              · exact containsSub_takeBeforeSub_false (by decide) _

/-- Witness for C9: three detail urls differing only by query string or
referral suffix collapse to one clean link, next to one gp/product
link. -/
theorem c9_witness :
    (["https://amazon.com/dp/A1".toList,
      "https://amazon.com/gp/product/B2".toList] : List Str).length ≤ 5 ∧
    (["https://amazon.com/dp/A1".toList,
      "https://amazon.com/gp/product/B2".toList] : List Str).Nodup ∧
    ∀ l ∈ (["https://amazon.com/dp/A1".toList,
      "https://amazon.com/gp/product/B2".toList] : List Str),
      ('?' ∉ l) ∧ containsSub ("/ref=".toList) l = false ∧ CleanLink l :=
  c9_links_dedup_capped searchResA _ (by rfl)

/-! ## Toolkit: injectivity of the product keys -/

theorem undigits_natDigitsF : ∀ (fuel n : Nat), n ≤ fuel →
    undigits (natDigitsF fuel n) = n := by
  intro fuel
  induction fuel with
  | zero =>
    intro n h
    have : n = 0 := Nat.le_zero.mp h
    subst this
    rfl
  | succ f ih =>
    intro n h
    by_cases hn : n = 0
    · subst hn
      simp [natDigitsF, undigits]
    · have hdiv : n / 10 ≤ f := by
        have := Nat.div_lt_self (Nat.pos_of_ne_zero hn) (by omega : 1 < 10)
        omega
      show undigits (if n = 0 then [] else n % 10 :: natDigitsF f (n / 10)) = n
      rw [if_neg hn]
      show n % 10 + 10 * undigits (natDigitsF f (n / 10)) = n
      rw [ih (n / 10) hdiv]
      omega

theorem natDigitsF_lt : ∀ (fuel n d : Nat), d ∈ natDigitsF fuel n → d < 10 := by
  intro fuel
  induction fuel with
  | zero =>
    intro n d h
    exact absurd h (List.not_mem_nil d)
  | succ f ih =>
    intro n d h
    revert h
    show d ∈ (if n = 0 then [] else n % 10 :: natDigitsF f (n / 10)) → _
    by_cases hn : n = 0
    · rw [if_pos hn]
      intro h
      exact absurd h (List.not_mem_nil d)
    · rw [if_neg hn]
      intro h
      rcases List.mem_cons.mp h with h | h
      · subst h
        omega
      · exact ih (n / 10) d h

theorem strDecode_natToStr (n : Nat) : strDecode (natToStr n) = n := by
  unfold strDecode natToStr
  rw [List.reverse_reverse, List.map_map]
  have hmap : (natDigits n).map ((fun c => c.toNat - 48) ∘ (fun d => Char.ofNat (48 + d))) =
      natDigits n := by
    have hlt : ∀ d ∈ natDigits n, d < 10 := fun d hd => natDigitsF_lt n n d hd
    have hfix : ∀ d : Nat, d < 10 →
        ((fun c => c.toNat - 48) ∘ (fun d => Char.ofNat (48 + d))) d = d := by decide
    revert hlt
    generalize natDigits n = ds
    intro hlt
    induction ds with
    | nil => rfl
    | cons d ds ihd =>
      rw [List.map_cons, hfix d (hlt d (List.mem_cons_self d ds)),
        ihd (fun e he => hlt e (List.mem_cons_of_mem d he))]
  rw [hmap]
  exact undigits_natDigitsF n n (Nat.le_refl n)

theorem natToStr_inj {a b : Nat} (h : natToStr a = natToStr b) : a = b := by
  rw [← strDecode_natToStr a, ← strDecode_natToStr b, h]

theorem productKey_inj {a b : Nat} (h : productKey a = productKey b) : a = b := by
  unfold productKey at h
  exact natToStr_inj (List.append_cancel_left h)

/-! ## Claim C6: amended theorem -/

theorem extractEnhancedBody_url {content url : Value} {p : Product}
    (h : extractEnhancedBody content url = .ok p) : p.url = url := by
  unfold extractEnhancedBody at h
  rcases content with s | n | b | _ | xs | kvs
  · simp only [vInStr, vSearch, vFindAll, vLower, except_bind_ok, except_bind_error,
      pure, Except.pure] at h
    repeat' split at h
    all_goals (injection h with h'; subst h'; simp [defaultProduct])
  · exact Except.noConfusion h
  · exact Except.noConfusion h
  · exact Except.noConfusion h
  · simp only [vInStr, vSearch, except_bind_ok, except_bind_error] at h
    repeat' split at h
    all_goals exact Except.noConfusion h
  · simp only [vInStr, vSearch, except_bind_ok, except_bind_error] at h
    repeat' split at h
    all_goals exact Except.noConfusion h

/-- C6 amended: every Product record (successful extraction or fallback)
carries exactly the url value of its source block (which defaults to the
empty string when the block has no url field); in particular it is a
non-empty string whenever the block provides one. -/
theorem c6_amended_url_propagated (content url : Value) :
    (extractEnhancedProductInfo content url).url = url ∧
    (∀ u : Str, url = Value.str u → u ≠ [] →
      ∃ u', (extractEnhancedProductInfo content url).url = Value.str u' ∧ u' ≠ []) := by
  have hurl : (extractEnhancedProductInfo content url).url = url := by
    unfold extractEnhancedProductInfo
    rcases hb : extractEnhancedBody content url with e | p
    · rfl
    · exact extractEnhancedBody_url hb
  exact ⟨hurl, fun u hu hne => ⟨u, by rw [hurl, hu], hne⟩⟩

/-- Witness for C6 amended: a block with the non-empty url `u` yields a
Product with that url. -/
theorem c6_amended_witness :
    (extractEnhancedProductInfo (Value.str ("c".toList)) (Value.str ("u".toList))).url =
      Value.str ("u".toList) ∧
    ∃ u', (extractEnhancedProductInfo (Value.str ("c".toList))
      (Value.str ("u".toList))).url = Value.str u' ∧ u' ≠ [] := by
  have h := c6_amended_url_propagated (Value.str ("c".toList)) (Value.str ("u".toList))
  exact ⟨h.1, h.2 ("u".toList) rfl (by decide)⟩

/-! ## Claim C7: amended theorem -/

theorem alistLookup_cons {β : Type} (kv : Str × β) (m : List (Str × β)) (k : Str) :
    alistLookup (kv :: m) k =
      if kv.1 == k then some kv.2 else alistLookup m k := by
  unfold alistLookup
  rw [List.find?_cons]
  split <;> rename_i heq <;> simp [heq]

theorem alistLookup_map_set {β : Type} {k' : Str} (v : β) {k : Str} (h : k ≠ k') :
    ∀ (m : List (Str × β)),
      alistLookup (m.map (fun kv => if kv.1 == k' then (k', v) else kv)) k =
        alistLookup m k := by
  intro m
  induction m with
  | nil => rfl
  | cons kv m ih =>
    rw [List.map_cons]
    by_cases hk : kv.1 == k'
    · rw [if_pos hk, alistLookup_cons, alistLookup_cons]
      have hkvk : (kv.1 == k) = false := by
        have hkv : kv.1 = k' := beq_iff_eq.mp hk
        simp [hkv]
        exact fun hkk => h hkk.symm
      have hk'k : ((k', v).1 == k) = false := by
        simp
        exact fun hkk => h hkk.symm
      rw [hkvk, hk'k]
      simp only [Bool.false_eq_true, if_false]
      exact ih
    · rw [if_neg hk, alistLookup_cons, alistLookup_cons]
      cases hkvk : (kv.1 == k)
      · simp only [Bool.false_eq_true, if_false]
        exact ih
      · simp

theorem alistLookup_append_ne {β : Type} {k k' : Str} (v : β) (h : k ≠ k') :
    ∀ (m : List (Str × β)),
      alistLookup (m ++ [(k', v)]) k = alistLookup m k := by
  intro m
  induction m with
  | nil =>
    rw [List.nil_append, alistLookup_cons]
    have : ((k', v).1 == k) = false := by
      simp
      exact fun hkk => h hkk.symm
    rw [this]
    rfl
  | cons kv m ih =>
    rw [List.cons_append, alistLookup_cons, alistLookup_cons]
    cases hkvk : (kv.1 == k)
    · simp only [Bool.false_eq_true, if_false]
      exact ih
    · simp

theorem alistLookup_set_ne {β : Type} {k k' : Str} (v : β) (h : k ≠ k')
    (m : List (Str × β)) : alistLookup (alistSet m k' v) k = alistLookup m k := by
  unfold alistSet
  by_cases ha : m.any (fun kv => kv.1 == k')
  · rw [if_pos ha]
    exact alistLookup_map_set v h m
  · rw [if_neg ha]
    exact alistLookup_append_ne v h m

theorem alistLookup_set_self {β : Type} (k : Str) (v : β) :
    ∀ (m : List (Str × β)), alistLookup (alistSet m k v) k = some v := by
  intro m
  unfold alistSet
  by_cases ha : m.any (fun kv => kv.1 == k)
  · rw [if_pos ha]
    induction m with
    | nil => simp at ha
    | cons kv m ih =>
      rw [List.map_cons]
      by_cases hk : kv.1 == k
      · rw [if_pos hk, alistLookup_cons]
        simp
      · rw [if_neg hk, alistLookup_cons]
        have hkvk : (kv.1 == k) = false := by simpa using hk
        rw [hkvk]
        simp only [Bool.false_eq_true, if_false]
        have ha' : m.any (fun kv => kv.1 == k) := by
          rcases List.any_eq_true.mp ha with ⟨x, hx, hxk⟩
          rcases List.mem_cons.mp hx with hx | hx
          · exact absurd (hx ▸ hxk) (by simpa using hk)
          · exact List.any_eq_true.mpr ⟨x, hx, hxk⟩
        exact ih ha'
  · rw [if_neg ha]
    induction m with
    | nil =>
      rw [List.nil_append, alistLookup_cons]
      simp
    | cons kv m ih =>
      have hk : ¬ (kv.1 == k) = true := by
        intro hk
        exact ha (List.any_eq_true.mpr ⟨kv, List.mem_cons_self kv m, hk⟩)
      rw [List.cons_append, alistLookup_cons]
      have hkvk : (kv.1 == k) = false := by simpa using hk
      rw [hkvk]
      simp only [Bool.false_eq_true, if_false]
      have ha' : ¬ m.any (fun kv => kv.1 == k) = true := by
        intro h'
        rcases List.any_eq_true.mp h' with ⟨x, hx, hxk⟩
        exact ha (List.any_eq_true.mpr ⟨x, List.mem_cons_of_mem kv hx, hxk⟩)
      exact ih ha'

theorem extractProductLoop_spec :
    ∀ (blocks : List Value) (st : AgentState) (i : Nat),
      (∀ b ∈ blocks, ∃ bkvs, b = Value.dict bkvs) →
      (extractProductLoop st i blocks).shopping_session.products_viewed =
        st.shopping_session.products_viewed ++ blocks.map blockProduct ∧
      (∀ j, j < blocks.length →
        alistLookup (extractProductLoop st i blocks).current_products
          (productKey (i + j + 1)) = (blocks.map blockProduct).get? j) ∧
      (∀ k : Str, (∀ j, j < blocks.length → k ≠ productKey (i + j + 1)) →
        alistLookup (extractProductLoop st i blocks).current_products k =
          alistLookup st.current_products k) := by
  intro blocks
  induction blocks with
  | nil =>
    intro st i _
    refine ⟨by simp [extractProductLoop], ?_, ?_⟩
    · intro j hj
      exact absurd hj (by simp)
    · intro k _
      rfl
  | cons b rest ih =>
    intro st i hblocks
    rcases hblocks b (List.mem_cons_self b rest) with ⟨bkvs, hb⟩
    subst hb
    have hrest : ∀ b' ∈ rest, ∃ bkvs, b' = Value.dict bkvs :=
      fun b' hb' => hblocks b' (List.mem_cons_of_mem _ hb')
    set p := blockProduct (Value.dict bkvs) with hp
    set st' : AgentState :=
      { current_products := alistSet st.current_products (productKey (i + 1)) p
        shopping_session := { st.shopping_session with
          products_viewed := st.shopping_session.products_viewed ++ [p] } } with hst'
    have hstep : extractProductLoop st i (Value.dict bkvs :: rest) =
        extractProductLoop st' (i + 1) rest := rfl
    rcases ih st' (i + 1) hrest with ⟨ihA, ihB, ihC⟩
    refine ⟨?_, ?_, ?_⟩
    · rw [hstep, ihA, hst']
      simp [List.append_assoc]
    · intro j hj
      cases j with
      | zero =>
        rw [hstep]
        have hkey : ∀ j', j' < rest.length → productKey (i + 0 + 1) ≠ productKey (i + 1 + j' + 1) := by
          intro j' _ hkeq
          have := productKey_inj hkeq
          omega
        rw [ihC (productKey (i + 0 + 1)) hkey]
        show alistLookup (alistSet st.current_products (productKey (i + 1)) p)
          (productKey (i + 0 + 1)) = _
        rw [show i + 0 + 1 = i + 1 from by omega, alistLookup_set_self]
        rfl
      | succ j' =>
        rw [hstep]
        have harith : i + (j' + 1) + 1 = i + 1 + j' + 1 := by omega
        rw [harith, ihB j' (by simpa using hj)]
        rfl
    · intro k hk
      rw [hstep, ihC k (fun j' hj' => by
        have := hk (j' + 1) (by simpa using hj')
        rwa [show i + (j' + 1) + 1 = i + 1 + j' + 1 from by omega] at this)]
      show alistLookup (alistSet st.current_products (productKey (i + 1)) p) k = _
      exact alistLookup_set_ne p (by
        have := hk 0 (by simp)
        rwa [show i + 0 + 1 = i + 1 from by omega] at this) _

/-- C7 amended: a scrape batch of `n` dict blocks overwrites exactly the
keys `product_1 … product_n` of the synthetic mapping with that batch's
products and leaves every other key (including stale higher-index entries
from earlier, larger batches) unchanged — the mapping is cleared only by
`reset`; `products_viewed` meanwhile accumulates the batch in order. -/
theorem c7_amended_batch_overwrite (st : AgentState) (kvs : List (Str × Value))
    (blocks : List Value)
    (hdata : dictLookup kvs ("data".toList) = some (Value.list blocks))
    (hblocks : ∀ b ∈ blocks, ∃ bkvs, b = Value.dict bkvs) :
    (extract_product_info st (Value.dict kvs)).shopping_session.products_viewed =
      st.shopping_session.products_viewed ++ blocks.map blockProduct ∧
    (∀ j, j < blocks.length →
      alistLookup (extract_product_info st (Value.dict kvs)).current_products
        (productKey (j + 1)) = (blocks.map blockProduct).get? j) ∧
    (∀ k : Str, (∀ j, j < blocks.length → k ≠ productKey (j + 1)) →
      alistLookup (extract_product_info st (Value.dict kvs)).current_products k =
        alistLookup st.current_products k) ∧
    (reset (extract_product_info st (Value.dict kvs))).current_products = [] := by
  have hres : extract_product_info st (Value.dict kvs) = extractProductLoop st 0 blocks := by
    unfold extract_product_info extractProductInfoBody
    show (match (match dictLookup kvs ("data".toList) with
      | some (Value.list results) =>
        (Except.ok (extractProductLoop st 0 results) : Except (PyErr × AgentState) AgentState)
      | _ => Except.ok st) with
      | Except.ok s => s
      | Except.error (_, s) => s) = _
    rw [hdata]
  rcases extractProductLoop_spec blocks st 0 hblocks with ⟨hA, hB, hC⟩
  refine ⟨by rw [hres]; exact hA, ?_, ?_, rfl⟩
  · intro j hj
    rw [hres]
    have := hB j hj
    rwa [show 0 + j + 1 = j + 1 from by omega] at this
  · intro k hk
    rw [hres]
    exact hC k (fun j hj => by
      rw [show 0 + j + 1 = j + 1 from by omega]
      exact hk j hj)

/-- Witness for C7 amended, at the concrete second batch of the
counterexample: `product_1` is overwritten with the batch product and the
stale key `product_2` is untouched. -/
theorem c7_amended_witness :
    (extract_product_info (extract_product_info st0 batchA) batchB).shopping_session.products_viewed =
      (extract_product_info st0 batchA).shopping_session.products_viewed ++
        [blockProduct (Value.dict [("url".toList, Value.str ("b1".toList)),
          ("content".toList, Value.str [])])] ∧
    alistLookup (extract_product_info (extract_product_info st0 batchA) batchB).current_products
      (productKey 2) =
      alistLookup (extract_product_info st0 batchA).current_products (productKey 2) := by
  have h := c7_amended_batch_overwrite (extract_product_info st0 batchA)
    [("data".toList, Value.list [Value.dict [("url".toList, Value.str ("b1".toList)),
      ("content".toList, Value.str [])]])]
    [Value.dict [("url".toList, Value.str ("b1".toList)), ("content".toList, Value.str [])]]
    (by rfl)
    (by
      intro b hb
      rcases List.mem_cons.mp hb with hb | hb
      · exact ⟨_, hb⟩
      · exact absurd hb (List.not_mem_nil b))
  refine ⟨h.1, ?_⟩
  have h3 := h.2.2.1 (productKey 2) (fun j hj => by
    have hj0 : j = 0 := by simpa using hj
    subst hj0
    intro hkeq
    exact absurd (productKey_inj hkeq) (by omega))
  exact h3

/-! ## Toolkit: anchored matches of the concrete directives -/

theorem isPrefixOf_append_left_eq :
    ∀ (l d z : Str), l.length ≤ d.length →
      (l.isPrefixOf (d ++ z)) = l.isPrefixOf d := by
  intro l
  induction l with
  | nil => intro d z _; simp
  | cons a as ih =>
    intro d z hlen
    cases d with
    | nil => simp at hlen
    | cons b bs =>
      rw [List.cons_append]
      show (a == b && as.isPrefixOf (bs ++ z)) = (a == b && as.isPrefixOf bs)
      rw [ih bs z (by simpa using hlen)]

theorem matchDisplayLink_none_of_notPrefix {s : Str}
    (h : hdrDisplayLink.isPrefixOf s = false) : matchDisplayLink s = none := by
  simp [matchDisplayLink, h]

theorem matchProductCard_none_of_notPrefix {s : Str}
    (h : hdrProductCard.isPrefixOf s = false) : matchProductCard s = none := by
  simp [matchProductCard, h]

theorem matchCompare_none_of_notPrefix {s : Str}
    (h : hdrCompare.isPrefixOf s = false) : matchCompare s = none := by
  simp [matchCompare, h]

theorem matchPurchase_none_of_notPrefix {s : Str}
    (h : hdrPurchase.isPrefixOf s = false) : matchPurchase s = none := by
  simp [matchPurchase, h]

theorem matchDisplayLink_dl1 (z : Str) :
    matchDisplayLink (dl1 ++ z) =
      some (("Mouse ".toList, "m.com/1".toList), dl1.length) := by
  have h : matchDisplayLink (dl1 ++ z) =
      some (("Mouse ".toList, "m.com/1".toList), (dl1 ++ z).length - z.length) := rfl
  rw [h, List.length_append]
  have hlen : dl1.length + z.length - z.length = dl1.length := by omega
  rw [hlen]

theorem matchDisplayLink_dl2 (z : Str) :
    matchDisplayLink (dl2 ++ z) =
      some (("Pad ".toList, "m.com/2".toList), dl2.length) := by
  have h : matchDisplayLink (dl2 ++ z) =
      some (("Pad ".toList, "m.com/2".toList), (dl2 ++ z).length - z.length) := rfl
  rw [h, List.length_append]
  have hlen : dl2.length + z.length - z.length = dl2.length := by omega
  rw [hlen]

theorem matchProductCard_pc1 (z : Str) :
    matchProductCard (pc1 ++ z) =
      some (("Mouse".toList, "m.com/1".toList, "$10".toList, "4.5".toList,
        "wireless".toList, "light".toList, "photo".toList), pc1.length) := by
  have h : matchProductCard (pc1 ++ z) =
      some (("Mouse".toList, "m.com/1".toList, "$10".toList, "4.5".toList,
        "wireless".toList, "light".toList, "photo".toList),
        (pc1 ++ z).length - z.length) := rfl
  rw [h, List.length_append]
  have hlen : pc1.length + z.length - z.length = pc1.length := by omega
  rw [hlen]

theorem matchProductCard_pc2 (z : Str) :
    matchProductCard (pc2 ++ z) =
      some (("Pad".toList, "m.com/2".toList, "$20".toList, "4.0".toList,
        [], [], []), pc2.length) := by
  have h : matchProductCard (pc2 ++ z) =
      some (("Pad".toList, "m.com/2".toList, "$20".toList, "4.0".toList,
        [], [], []), (pc2 ++ z).length - z.length) := rfl
  rw [h, List.length_append]
  have hlen : pc2.length + z.length - z.length = pc2.length := by omega
  rw [hlen]

theorem matchCompare_cp1 (z : Str) :
    matchCompare (cp1 ++ z) = some ("Mouse vs Pad".toList, cp1.length) := by
  have h : matchCompare (cp1 ++ z) =
      some ("Mouse vs Pad".toList, (cp1 ++ z).length - z.length) := rfl
  rw [h, List.length_append]
  have hlen : cp1.length + z.length - z.length = cp1.length := by omega
  rw [hlen]

theorem matchCompare_cp2 (z : Str) :
    matchCompare (cp2 ++ z) = some ("Pad vs Mouse".toList, cp2.length) := by
  have h : matchCompare (cp2 ++ z) =
      some ("Pad vs Mouse".toList, (cp2 ++ z).length - z.length) := rfl
  rw [h, List.length_append]
  have hlen : cp2.length + z.length - z.length = cp2.length := by omega
  rw [hlen]

theorem matchPurchase_pi1 (z : Str) :
    matchPurchase (pi1 ++ z) =
      some (("Mouse ".toList, "m.com/1 ".toList, "$10".toList), pi1.length) := by
  have h : matchPurchase (pi1 ++ z) =
      some (("Mouse ".toList, "m.com/1 ".toList, "$10".toList),
        (pi1 ++ z).length - z.length) := rfl
  rw [h, List.length_append]
  have hlen : pi1.length + z.length - z.length = pi1.length := by omega
  rw [hlen]

theorem matchPurchase_pi2 (z : Str) :
    matchPurchase (pi2 ++ z) =
      some (("Pad ".toList, "m.com/2 ".toList, "$20".toList), pi2.length) := by
  have h : matchPurchase (pi2 ++ z) =
      some (("Pad ".toList, "m.com/2 ".toList, "$20".toList),
        (pi2 ++ z).length - z.length) := rfl
  rw [h, List.length_append]
  have hlen : pi2.length + z.length - z.length = pi2.length := by omega
  rw [hlen]

/-! ## Claim C4: amended theorem -/

/-- C4 amended: the last three PRODUCT_CARD fields may be left EMPTY (the
six pipe separators must still be present); such a directive is extracted
as a card whose `feature1`, `feature2` and `image_hint` are the empty
string, wherever it occurs in otherwise bracket-free text.  (A directive
that omits the separators as well is not extracted at all — see the
counterexample.) -/
theorem c4_amended_empty_optional_fields (a b : Str) (ha : '[' ∉ a) (hb : '[' ∉ b) :
    (process_response_for_enhanced_features (a ++ pc2 ++ b)).product_cards =
      [{ name := "Pad".toList, url := "m.com/2".toList, price := "$20".toList,
         rating := "4.0".toList, feature1 := [], feature2 := [], image_hint := [] }] := by
  have hscan : scanAll matchProductCard (a ++ pc2 ++ b) =
      [("Pad".toList, "m.com/2".toList, "$20".toList, "4.0".toList, [], [], [])] := by
    rw [List.append_assoc, scanAll_append_of_nolb headGuard_matchProductCard _ ha,
      scanAll_consume _ (matchProductCard_pc2 b) (by decide),
      scanAll_eq_nil_of_nolb headGuard_matchProductCard hb]
  unfold process_response_for_enhanced_features
  simp only [hscan, List.map_cons, List.map_nil]
  decide

/-- Witness for C4 amended at concrete surrounding text. -/
theorem c4_amended_witness :
    (process_response_for_enhanced_features
      ("Look: ".toList ++ pc2 ++ " ok?".toList)).product_cards =
      [{ name := "Pad".toList, url := "m.com/2".toList, price := "$20".toList,
         rating := "4.0".toList, feature1 := [], feature2 := [], image_hint := [] }] :=
  c4_amended_empty_optional_fields ("Look: ".toList) (" ok?".toList)
    (by decide) (by decide)

/-! ## Claim C1: amended theorem -/

theorem matchDisplayLink_none_dir (d : Str) (hlen : hdrDisplayLink.length ≤ d.length)
    (hd : hdrDisplayLink.isPrefixOf d = false) (z : Str) :
    matchDisplayLink (d ++ z) = none :=
  matchDisplayLink_none_of_notPrefix
    ((isPrefixOf_append_left_eq _ d z hlen).trans hd)

theorem matchProductCard_none_dir (d : Str) (hlen : hdrProductCard.length ≤ d.length)
    (hd : hdrProductCard.isPrefixOf d = false) (z : Str) :
    matchProductCard (d ++ z) = none :=
  matchProductCard_none_of_notPrefix
    ((isPrefixOf_append_left_eq _ d z hlen).trans hd)

theorem matchCompare_none_dir (d : Str) (hlen : hdrCompare.length ≤ d.length)
    (hd : hdrCompare.isPrefixOf d = false) (z : Str) :
    matchCompare (d ++ z) = none :=
  matchCompare_none_of_notPrefix
    ((isPrefixOf_append_left_eq _ d z hlen).trans hd)

theorem matchPurchase_none_dir (d : Str) (hlen : hdrPurchase.length ≤ d.length)
    (hd : hdrPurchase.isPrefixOf d = false) (z : Str) :
    matchPurchase (d ++ z) = none :=
  matchPurchase_none_of_notPrefix
    ((isPrefixOf_append_left_eq _ d z hlen).trans hd)

theorem scanCompare_c1Text (s0 s1 s2 s3 s4 s5 s6 s7 s8 : Str)
    (h0 : '[' ∉ s0) (h1 : '[' ∉ s1) (h2 : '[' ∉ s2) (h3 : '[' ∉ s3) (h4 : '[' ∉ s4)
    (h5 : '[' ∉ s5) (h6 : '[' ∉ s6) (h7 : '[' ∉ s7) (h8 : '[' ∉ s8) :
    scanAll matchCompare (c1Text s0 s1 s2 s3 s4 s5 s6 s7 s8) =
      ["Mouse vs Pad".toList, "Pad vs Mouse".toList] := by
  unfold c1Text
  simp only [List.append_assoc]
  rw [scanAll_append_of_nolb headGuard_matchCompare _ h0,
    scanAll_consume _ (matchCompare_cp1 _) (by decide),
    scanAll_append_of_nolb headGuard_matchCompare _ h1,
    scanAll_consume _ (matchCompare_cp2 _) (by decide),
    scanAll_append_of_nolb headGuard_matchCompare _ h2,
    scanAll_chunk headGuard_matchCompare _
      (matchCompare_none_dir pi1 (by decide) (by decide) _) (by decide) (by decide),
    scanAll_append_of_nolb headGuard_matchCompare _ h3,
    scanAll_chunk headGuard_matchCompare _
      (matchCompare_none_dir pi2 (by decide) (by decide) _) (by decide) (by decide),
    scanAll_append_of_nolb headGuard_matchCompare _ h4,
    scanAll_chunk headGuard_matchCompare _
      (matchCompare_none_dir pc1 (by decide) (by decide) _) (by decide) (by decide),
    scanAll_append_of_nolb headGuard_matchCompare _ h5,
    scanAll_chunk headGuard_matchCompare _
      (matchCompare_none_dir pc2 (by decide) (by decide) _) (by decide) (by decide),
    scanAll_append_of_nolb headGuard_matchCompare _ h6,
    scanAll_chunk headGuard_matchCompare _
      (matchCompare_none_dir dl1 (by decide) (by decide) _) (by decide) (by decide),
    scanAll_append_of_nolb headGuard_matchCompare _ h7,
    scanAll_chunk headGuard_matchCompare _
      (matchCompare_none_dir dl2 (by decide) (by decide) _) (by decide) (by decide),
    scanAll_eq_nil_of_nolb headGuard_matchCompare h8]

theorem scanPurchase_c1Text (s0 s1 s2 s3 s4 s5 s6 s7 s8 : Str)
    (h0 : '[' ∉ s0) (h1 : '[' ∉ s1) (h2 : '[' ∉ s2) (h3 : '[' ∉ s3) (h4 : '[' ∉ s4)
    (h5 : '[' ∉ s5) (h6 : '[' ∉ s6) (h7 : '[' ∉ s7) (h8 : '[' ∉ s8) :
    scanAll matchPurchase (c1Text s0 s1 s2 s3 s4 s5 s6 s7 s8) =
      [("Mouse ".toList, "m.com/1 ".toList, "$10".toList),
       ("Pad ".toList, "m.com/2 ".toList, "$20".toList)] := by
  unfold c1Text
  simp only [List.append_assoc]
  rw [scanAll_append_of_nolb headGuard_matchPurchase _ h0,
    scanAll_chunk headGuard_matchPurchase _
      (matchPurchase_none_dir cp1 (by decide) (by decide) _) (by decide) (by decide),
    scanAll_append_of_nolb headGuard_matchPurchase _ h1,
    scanAll_chunk headGuard_matchPurchase _
      (matchPurchase_none_dir cp2 (by decide) (by decide) _) (by decide) (by decide),
    scanAll_append_of_nolb headGuard_matchPurchase _ h2,
    scanAll_consume _ (matchPurchase_pi1 _) (by decide),
    scanAll_append_of_nolb headGuard_matchPurchase _ h3,
    scanAll_consume _ (matchPurchase_pi2 _) (by decide),
    scanAll_append_of_nolb headGuard_matchPurchase _ h4,
    scanAll_chunk headGuard_matchPurchase _
      (matchPurchase_none_dir pc1 (by decide) (by decide) _) (by decide) (by decide),
    scanAll_append_of_nolb headGuard_matchPurchase _ h5,
    scanAll_chunk headGuard_matchPurchase _
      (matchPurchase_none_dir pc2 (by decide) (by decide) _) (by decide) (by decide),
    scanAll_append_of_nolb headGuard_matchPurchase _ h6,
    scanAll_chunk headGuard_matchPurchase _
      (matchPurchase_none_dir dl1 (by decide) (by decide) _) (by decide) (by decide),
    scanAll_append_of_nolb headGuard_matchPurchase _ h7,
    scanAll_chunk headGuard_matchPurchase _
      (matchPurchase_none_dir dl2 (by decide) (by decide) _) (by decide) (by decide),
    scanAll_eq_nil_of_nolb headGuard_matchPurchase h8]

theorem scanCard_c1Text (s0 s1 s2 s3 s4 s5 s6 s7 s8 : Str)
    (h0 : '[' ∉ s0) (h1 : '[' ∉ s1) (h2 : '[' ∉ s2) (h3 : '[' ∉ s3) (h4 : '[' ∉ s4)
    (h5 : '[' ∉ s5) (h6 : '[' ∉ s6) (h7 : '[' ∉ s7) (h8 : '[' ∉ s8) :
    scanAll matchProductCard (c1Text s0 s1 s2 s3 s4 s5 s6 s7 s8) =
      [("Mouse".toList, "m.com/1".toList, "$10".toList, "4.5".toList,
        "wireless".toList, "light".toList, "photo".toList),
       ("Pad".toList, "m.com/2".toList, "$20".toList, "4.0".toList, [], [], [])] := by
  unfold c1Text
  simp only [List.append_assoc]
  rw [scanAll_append_of_nolb headGuard_matchProductCard _ h0,
    scanAll_chunk headGuard_matchProductCard _
      (matchProductCard_none_dir cp1 (by decide) (by decide) _) (by decide) (by decide),
    scanAll_append_of_nolb headGuard_matchProductCard _ h1,
    scanAll_chunk headGuard_matchProductCard _
      (matchProductCard_none_dir cp2 (by decide) (by decide) _) (by decide) (by decide),
    scanAll_append_of_nolb headGuard_matchProductCard _ h2,
    scanAll_chunk headGuard_matchProductCard _
      (matchProductCard_none_dir pi1 (by decide) (by decide) _) (by decide) (by decide),
    scanAll_append_of_nolb headGuard_matchProductCard _ h3,
    scanAll_chunk headGuard_matchProductCard _
      (matchProductCard_none_dir pi2 (by decide) (by decide) _) (by decide) (by decide),
    scanAll_append_of_nolb headGuard_matchProductCard _ h4,
    scanAll_consume _ (matchProductCard_pc1 _) (by decide),
    scanAll_append_of_nolb headGuard_matchProductCard _ h5,
    scanAll_consume _ (matchProductCard_pc2 _) (by decide),
    scanAll_append_of_nolb headGuard_matchProductCard _ h6,
    scanAll_chunk headGuard_matchProductCard _
      (matchProductCard_none_dir dl1 (by decide) (by decide) _) (by decide) (by decide),
    scanAll_append_of_nolb headGuard_matchProductCard _ h7,
    scanAll_chunk headGuard_matchProductCard _
      (matchProductCard_none_dir dl2 (by decide) (by decide) _) (by decide) (by decide),
    scanAll_eq_nil_of_nolb headGuard_matchProductCard h8]

theorem scanLink_c1Text (s0 s1 s2 s3 s4 s5 s6 s7 s8 : Str)
    (h0 : '[' ∉ s0) (h1 : '[' ∉ s1) (h2 : '[' ∉ s2) (h3 : '[' ∉ s3) (h4 : '[' ∉ s4)
    (h5 : '[' ∉ s5) (h6 : '[' ∉ s6) (h7 : '[' ∉ s7) (h8 : '[' ∉ s8) :
    scanAll matchDisplayLink (c1Text s0 s1 s2 s3 s4 s5 s6 s7 s8) =
      [("Mouse ".toList, "m.com/1".toList), ("Pad ".toList, "m.com/2".toList)] := by
  unfold c1Text
  simp only [List.append_assoc]
  rw [scanAll_append_of_nolb headGuard_matchDisplayLink _ h0,
    scanAll_chunk headGuard_matchDisplayLink _
      (matchDisplayLink_none_dir cp1 (by decide) (by decide) _) (by decide) (by decide),
    scanAll_append_of_nolb headGuard_matchDisplayLink _ h1,
    scanAll_chunk headGuard_matchDisplayLink _
      (matchDisplayLink_none_dir cp2 (by decide) (by decide) _) (by decide) (by decide),
    scanAll_append_of_nolb headGuard_matchDisplayLink _ h2,
    scanAll_chunk headGuard_matchDisplayLink _
      (matchDisplayLink_none_dir pi1 (by decide) (by decide) _) (by decide) (by decide),
    scanAll_append_of_nolb headGuard_matchDisplayLink _ h3,
    scanAll_chunk headGuard_matchDisplayLink _
      (matchDisplayLink_none_dir pi2 (by decide) (by decide) _) (by decide) (by decide),
    scanAll_append_of_nolb headGuard_matchDisplayLink _ h4,
    scanAll_chunk headGuard_matchDisplayLink _
      (matchDisplayLink_none_dir pc1 (by decide) (by decide) _) (by decide) (by decide),
    scanAll_append_of_nolb headGuard_matchDisplayLink _ h5,
    scanAll_chunk headGuard_matchDisplayLink _
      (matchDisplayLink_none_dir pc2 (by decide) (by decide) _) (by decide) (by decide),
    scanAll_append_of_nolb headGuard_matchDisplayLink _ h6,
    scanAll_consume _ (matchDisplayLink_dl1 _) (by decide),
    scanAll_append_of_nolb headGuard_matchDisplayLink _ h7,
    scanAll_consume _ (matchDisplayLink_dl2 _) (by decide),
    scanAll_eq_nil_of_nolb headGuard_matchDisplayLink h8]

theorem process_comparison (t : Str) :
    (process_response_for_enhanced_features t).comparison_data =
      (scanAll matchCompare t).head? := rfl

theorem process_purchase (t : Str) :
    (process_response_for_enhanced_features t).purchase_intent_data =
      (scanAll matchPurchase t).head?.map (fun g =>
        { product_name := pyStrip g.1, url := pyStrip g.2.1, price := pyStrip g.2.2
          : PurchaseData }) := rfl

theorem process_cards (t : Str) :
    (process_response_for_enhanced_features t).product_cards =
      (scanAll matchProductCard t).map (fun g =>
        { name := pyStrip g.1
          url := pyStrip g.2.1
          price := pyStrip g.2.2.1
          rating := pyStrip g.2.2.2.1
          feature1 := if g.2.2.2.2.1.isEmpty then [] else pyStrip g.2.2.2.2.1
          feature2 := if g.2.2.2.2.2.1.isEmpty then [] else pyStrip g.2.2.2.2.2.1
          image_hint := if g.2.2.2.2.2.2.isEmpty then [] else pyStrip g.2.2.2.2.2.2
          : ProductCard }) := rfl

theorem process_links (t : Str) :
    (process_response_for_enhanced_features t).links_to_display =
      (scanAll matchDisplayLink t).map (fun g =>
        { name := pyStrip g.1, url := pyStrip g.2 : DisplayLink }) := rfl

theorem process_spoken (t : Str) :
    (process_response_for_enhanced_features t).spoken_text =
      _optimize_for_voice (subAll matchPurchase (subAll matchCompare
        (subAll matchProductCard (subAll matchDisplayLink t)))) := by
  simp only [process_response_for_enhanced_features]

/-- C1 amended: when COMPARE_PRODUCTS or PURCHASE_INTENT appears more
than once in a model response, the parser keeps only the FIRST occurrence
(`matches[0]`) — not the last, as the claim states — while all
PRODUCT_CARD and DISPLAY_LINK occurrences accumulate as ordered
sequences; shown on a response carrying two well-formed directives of
each kind separated by arbitrary bracket-free text. -/
theorem c1_amended_first_occurrence_wins (s0 s1 s2 s3 s4 s5 s6 s7 s8 : Str)
    (h0 : '[' ∉ s0) (h1 : '[' ∉ s1) (h2 : '[' ∉ s2) (h3 : '[' ∉ s3) (h4 : '[' ∉ s4)
    (h5 : '[' ∉ s5) (h6 : '[' ∉ s6) (h7 : '[' ∉ s7) (h8 : '[' ∉ s8) :
    (process_response_for_enhanced_features
      (c1Text s0 s1 s2 s3 s4 s5 s6 s7 s8)).comparison_data =
        some ("Mouse vs Pad".toList) ∧
    (process_response_for_enhanced_features
      (c1Text s0 s1 s2 s3 s4 s5 s6 s7 s8)).purchase_intent_data =
        some { product_name := "Mouse".toList, url := "m.com/1".toList,
               price := "$10".toList } ∧
    (process_response_for_enhanced_features
      (c1Text s0 s1 s2 s3 s4 s5 s6 s7 s8)).product_cards =
        [{ name := "Mouse".toList, url := "m.com/1".toList, price := "$10".toList,
           rating := "4.5".toList, feature1 := "wireless".toList,
           feature2 := "light".toList, image_hint := "photo".toList },
         { name := "Pad".toList, url := "m.com/2".toList, price := "$20".toList,
           rating := "4.0".toList, feature1 := [], feature2 := [], image_hint := [] }] ∧
    (process_response_for_enhanced_features
      (c1Text s0 s1 s2 s3 s4 s5 s6 s7 s8)).links_to_display =
        [{ name := "Mouse".toList, url := "m.com/1".toList },
         { name := "Pad".toList, url := "m.com/2".toList }] := by
  refine ⟨?_, ?_, ?_, ?_⟩
  · rw [process_comparison,
      scanCompare_c1Text s0 s1 s2 s3 s4 s5 s6 s7 s8 h0 h1 h2 h3 h4 h5 h6 h7 h8]
    rfl
  · rw [process_purchase,
      scanPurchase_c1Text s0 s1 s2 s3 s4 s5 s6 s7 s8 h0 h1 h2 h3 h4 h5 h6 h7 h8]
    rfl
  · rw [process_cards,
      scanCard_c1Text s0 s1 s2 s3 s4 s5 s6 s7 s8 h0 h1 h2 h3 h4 h5 h6 h7 h8]
    rfl
  · rw [process_links,
      scanLink_c1Text s0 s1 s2 s3 s4 s5 s6 s7 s8 h0 h1 h2 h3 h4 h5 h6 h7 h8]
    rfl

/-- Witness for C1 amended at concrete separator text. -/
theorem c1_amended_witness :
    (process_response_for_enhanced_features
      (c1Text "a ".toList " b ".toList " c ".toList " d ".toList " e ".toList
        " f ".toList " g ".toList " h ".toList " i".toList)).comparison_data =
        some ("Mouse vs Pad".toList) ∧
    (process_response_for_enhanced_features
      (c1Text "a ".toList " b ".toList " c ".toList " d ".toList " e ".toList
        " f ".toList " g ".toList " h ".toList " i".toList)).purchase_intent_data =
        some { product_name := "Mouse".toList, url := "m.com/1".toList,
               price := "$10".toList } ∧
    (process_response_for_enhanced_features
      (c1Text "a ".toList " b ".toList " c ".toList " d ".toList " e ".toList
        " f ".toList " g ".toList " h ".toList " i".toList)).product_cards =
        [{ name := "Mouse".toList, url := "m.com/1".toList, price := "$10".toList,
           rating := "4.5".toList, feature1 := "wireless".toList,
           feature2 := "light".toList, image_hint := "photo".toList },
         { name := "Pad".toList, url := "m.com/2".toList, price := "$20".toList,
           rating := "4.0".toList, feature1 := [], feature2 := [], image_hint := [] }] ∧
    (process_response_for_enhanced_features
      (c1Text "a ".toList " b ".toList " c ".toList " d ".toList " e ".toList
        " f ".toList " g ".toList " h ".toList " i".toList)).links_to_display =
        [{ name := "Mouse".toList, url := "m.com/1".toList },
         { name := "Pad".toList, url := "m.com/2".toList }] :=
  c1_amended_first_occurrence_wins ("a ".toList) (" b ".toList) (" c ".toList)
    (" d ".toList) (" e ".toList) (" f ".toList) (" g ".toList) (" h ".toList)
    (" i".toList) (by decide) (by decide) (by decide) (by decide) (by decide)
    (by decide) (by decide) (by decide) (by decide)


/-! ## C2 amended: deletion walk lemmas and optimizer membership -/

theorem subLink_c1Text (s0 s1 s2 s3 s4 s5 s6 s7 s8 : Str)
    (h0 : '[' ∉ s0) (h1 : '[' ∉ s1) (h2 : '[' ∉ s2) (h3 : '[' ∉ s3) (h4 : '[' ∉ s4)
    (h5 : '[' ∉ s5) (h6 : '[' ∉ s6) (h7 : '[' ∉ s7) (h8 : '[' ∉ s8) :
    subAll matchDisplayLink (c1Text s0 s1 s2 s3 s4 s5 s6 s7 s8) =
      s0 ++ cp1 ++ s1 ++ cp2 ++ s2 ++ pi1 ++ s3 ++ pi2 ++ s4 ++ pc1 ++ s5 ++ pc2 ++
        s6 ++ s7 ++ s8 := by
  unfold c1Text
  simp only [List.append_assoc]
  rw [subAll_append_of_nolb headGuard_matchDisplayLink _ h0,
    subAll_chunk headGuard_matchDisplayLink _
      (matchDisplayLink_none_dir cp1 (by decide) (by decide) _) (by decide) (by decide),
    subAll_append_of_nolb headGuard_matchDisplayLink _ h1,
    subAll_chunk headGuard_matchDisplayLink _
      (matchDisplayLink_none_dir cp2 (by decide) (by decide) _) (by decide) (by decide),
    subAll_append_of_nolb headGuard_matchDisplayLink _ h2,
    subAll_chunk headGuard_matchDisplayLink _
      (matchDisplayLink_none_dir pi1 (by decide) (by decide) _) (by decide) (by decide),
    subAll_append_of_nolb headGuard_matchDisplayLink _ h3,
    subAll_chunk headGuard_matchDisplayLink _
      (matchDisplayLink_none_dir pi2 (by decide) (by decide) _) (by decide) (by decide),
    subAll_append_of_nolb headGuard_matchDisplayLink _ h4,
    subAll_chunk headGuard_matchDisplayLink _
      (matchDisplayLink_none_dir pc1 (by decide) (by decide) _) (by decide) (by decide),
    subAll_append_of_nolb headGuard_matchDisplayLink _ h5,
    subAll_chunk headGuard_matchDisplayLink _
      (matchDisplayLink_none_dir pc2 (by decide) (by decide) _) (by decide) (by decide),
    subAll_append_of_nolb headGuard_matchDisplayLink _ h6,
    subAll_consume _ (matchDisplayLink_dl1 _) (by decide),
    subAll_append_of_nolb headGuard_matchDisplayLink _ h7,
    subAll_consume _ (matchDisplayLink_dl2 _) (by decide),
    subAll_eq_self_of_nolb headGuard_matchDisplayLink h8]

theorem subCard_c1Text (s0 s1 s2 s3 s4 s5 s6 s7 s8 : Str)
    (h0 : '[' ∉ s0) (h1 : '[' ∉ s1) (h2 : '[' ∉ s2) (h3 : '[' ∉ s3) (h4 : '[' ∉ s4)
    (h5 : '[' ∉ s5) (h6 : '[' ∉ s6) (h7 : '[' ∉ s7) (h8 : '[' ∉ s8) :
    subAll matchProductCard
      (s0 ++ cp1 ++ s1 ++ cp2 ++ s2 ++ pi1 ++ s3 ++ pi2 ++ s4 ++ pc1 ++ s5 ++ pc2 ++
        s6 ++ s7 ++ s8) =
      s0 ++ cp1 ++ s1 ++ cp2 ++ s2 ++ pi1 ++ s3 ++ pi2 ++ s4 ++ s5 ++ s6 ++ s7 ++ s8 := by
  simp only [List.append_assoc]
  rw [subAll_append_of_nolb headGuard_matchProductCard _ h0,
    subAll_chunk headGuard_matchProductCard _
      (matchProductCard_none_dir cp1 (by decide) (by decide) _) (by decide) (by decide),
    subAll_append_of_nolb headGuard_matchProductCard _ h1,
    subAll_chunk headGuard_matchProductCard _
      (matchProductCard_none_dir cp2 (by decide) (by decide) _) (by decide) (by decide),
    subAll_append_of_nolb headGuard_matchProductCard _ h2,
    subAll_chunk headGuard_matchProductCard _
      (matchProductCard_none_dir pi1 (by decide) (by decide) _) (by decide) (by decide),
    subAll_append_of_nolb headGuard_matchProductCard _ h3,
    subAll_chunk headGuard_matchProductCard _
      (matchProductCard_none_dir pi2 (by decide) (by decide) _) (by decide) (by decide),
    subAll_append_of_nolb headGuard_matchProductCard _ h4,
    subAll_consume _ (matchProductCard_pc1 _) (by decide),
    subAll_append_of_nolb headGuard_matchProductCard _ h5,
    subAll_consume _ (matchProductCard_pc2 _) (by decide),
    subAll_append_of_nolb headGuard_matchProductCard _ h6,
    subAll_append_of_nolb headGuard_matchProductCard _ h7,
    subAll_eq_self_of_nolb headGuard_matchProductCard h8]

theorem subCompare_c1Text (s0 s1 s2 s3 s4 s5 s6 s7 s8 : Str)
    (h0 : '[' ∉ s0) (h1 : '[' ∉ s1) (h2 : '[' ∉ s2) (h3 : '[' ∉ s3) (h4 : '[' ∉ s4)
    (h5 : '[' ∉ s5) (h6 : '[' ∉ s6) (h7 : '[' ∉ s7) (h8 : '[' ∉ s8) :
    subAll matchCompare
      (s0 ++ cp1 ++ s1 ++ cp2 ++ s2 ++ pi1 ++ s3 ++ pi2 ++ s4 ++ s5 ++ s6 ++ s7 ++ s8) =
      s0 ++ s1 ++ s2 ++ pi1 ++ s3 ++ pi2 ++ s4 ++ s5 ++ s6 ++ s7 ++ s8 := by
  simp only [List.append_assoc]
  rw [subAll_append_of_nolb headGuard_matchCompare _ h0,
    subAll_consume _ (matchCompare_cp1 _) (by decide),
    subAll_append_of_nolb headGuard_matchCompare _ h1,
    subAll_consume _ (matchCompare_cp2 _) (by decide),
    subAll_append_of_nolb headGuard_matchCompare _ h2,
    subAll_chunk headGuard_matchCompare _
      (matchCompare_none_dir pi1 (by decide) (by decide) _) (by decide) (by decide),
    subAll_append_of_nolb headGuard_matchCompare _ h3,
    subAll_chunk headGuard_matchCompare _
      (matchCompare_none_dir pi2 (by decide) (by decide) _) (by decide) (by decide),
    subAll_append_of_nolb headGuard_matchCompare _ h4,
    subAll_append_of_nolb headGuard_matchCompare _ h5,
    subAll_append_of_nolb headGuard_matchCompare _ h6,
    subAll_append_of_nolb headGuard_matchCompare _ h7,
    subAll_eq_self_of_nolb headGuard_matchCompare h8]

theorem subPurchase_c1Text (s0 s1 s2 s3 s4 s5 s6 s7 s8 : Str)
    (h0 : '[' ∉ s0) (h1 : '[' ∉ s1) (h2 : '[' ∉ s2) (h3 : '[' ∉ s3) (h4 : '[' ∉ s4)
    (h5 : '[' ∉ s5) (h6 : '[' ∉ s6) (h7 : '[' ∉ s7) (h8 : '[' ∉ s8) :
    subAll matchPurchase
      (s0 ++ s1 ++ s2 ++ pi1 ++ s3 ++ pi2 ++ s4 ++ s5 ++ s6 ++ s7 ++ s8) =
      s0 ++ s1 ++ s2 ++ s3 ++ s4 ++ s5 ++ s6 ++ s7 ++ s8 := by
  simp only [List.append_assoc]
  rw [subAll_append_of_nolb headGuard_matchPurchase _ h0,
    subAll_append_of_nolb headGuard_matchPurchase _ h1,
    subAll_append_of_nolb headGuard_matchPurchase _ h2,
    subAll_consume _ (matchPurchase_pi1 _) (by decide),
    subAll_append_of_nolb headGuard_matchPurchase _ h3,
    subAll_consume _ (matchPurchase_pi2 _) (by decide),
    subAll_append_of_nolb headGuard_matchPurchase _ h4,
    subAll_append_of_nolb headGuard_matchPurchase _ h5,
    subAll_append_of_nolb headGuard_matchPurchase _ h6,
    subAll_append_of_nolb headGuard_matchPurchase _ h7,
    subAll_eq_self_of_nolb headGuard_matchPurchase h8]

theorem not_lb_voiceJoin {x : Str} (hx : '[' ∉ x) :
    '[' ∉ pyJoin [' '] (voiceLines x) := by
  intro h
  rcases mem_of_mem_pyJoin h with h | ⟨l, hl, hc⟩
  · simp at h
  · unfold voiceLines at hl
    have hl' := List.mem_of_mem_filter hl
    rcases List.mem_map.mp hl' with ⟨l0, hl0, hmap⟩
    exact hx (mem_of_mem_pySplitCh hl0 (mem_of_mem_pyStrip (hmap ▸ hc)))

theorem mem_of_mem_defensiveSubs {c : Char} {s : Str} (h : c ∈ defensiveSubs s) :
    c ∈ s :=
  mem_of_mem_subAll (mem_of_mem_pyStrip
    (mem_of_mem_subAll (mem_of_mem_pyStrip
      (mem_of_mem_subAll (mem_of_mem_pyStrip
        (mem_of_mem_subAll (mem_of_mem_pyStrip h)))))))

theorem not_mem_foldl_replace {c : Char} :
    ∀ (L : List (Str × Str)) (r : Str), (∀ kv ∈ L, c ∉ kv.2) → c ∉ r →
      c ∉ L.foldl (fun r kv => pyReplace kv.1 kv.2 r) r := by
  intro L
  induction L with
  | nil =>
    intro r _ hr
    simpa using hr
  | cons kv L ih =>
    intro r hL hr
    have hv : c ∉ kv.2 := hL kv (List.mem_cons_self kv L)
    have hr' : c ∉ pyReplace kv.1 kv.2 r := fun h =>
      (mem_of_mem_pyReplace h).elim hr hv
    exact ih _ (fun p hp => hL p (List.mem_cons_of_mem kv hp)) hr'

theorem mem_of_mem_truncSentences {c : Char} {s : Str} (h : c ∈ truncSentences s) :
    c ∈ s ∨ c = '.' ∨ c = ' ' := by
  simp only [truncSentences] at h
  split at h
  · rcases List.mem_append.mp h with h | h
    · rcases mem_of_mem_pyJoin h with h | ⟨l, hl, hc⟩
      · rcases List.mem_cons.mp h with h | h
        · exact Or.inr (Or.inl h)
        · right
          right
          simpa using h
      · exact Or.inl (mem_of_mem_pySplitCh (List.mem_of_mem_take hl) hc)
    · right
      left
      simpa using h
  · exact Or.inl h

theorem not_lb_optimize {x : Str} (hx : '[' ∉ x) :
    '[' ∉ _optimize_for_voice x := by
  intro h
  have h1 : '[' ∉ pyJoin [' '] (voiceLines x) := not_lb_voiceJoin hx
  have h2 : '[' ∉ defensiveSubs (pyJoin [' '] (voiceLines x)) := fun hm =>
    h1 (mem_of_mem_defensiveSubs hm)
  have h3 : '[' ∉ replacements.foldl (fun r kv => pyReplace kv.1 kv.2 r)
      (defensiveSubs (pyJoin [' '] (voiceLines x))) :=
    not_mem_foldl_replace replacements _ (by decide) h2
  have h4 : '[' ∈ truncSentences (replacements.foldl (fun r kv => pyReplace kv.1 kv.2 r)
      (defensiveSubs (pyJoin [' '] (voiceLines x)))) := mem_of_mem_pyStrip h
  rcases mem_of_mem_truncSentences h4 with h5 | h5 | h5
  · exact h3 h5
  · exact absurd h5 (by decide)
  · exact absurd h5 (by decide)

theorem NoDirective_of_not_lb {s : Str} (hs : '[' ∉ s) : NoDirective s := by
  intro i
  have hdi : '[' ∉ s.drop i := fun h => hs (List.mem_of_mem_drop h)
  rcases hdrop : s.drop i with _ | ⟨c, t⟩
  · exact ⟨rfl, rfl, rfl, rfl⟩
  · have hc : c ≠ '[' := fun h => (hdrop ▸ hdi) (h ▸ List.mem_cons_self c t)
    exact ⟨matchDisplayLink_none_of_head t hc, matchProductCard_none_of_head t hc,
      matchCompare_none_of_head t hc, matchPurchase_none_of_head t hc⟩

/-- C2 amended: the two-pass design (findall on the raw text, then
re.sub-deletion of all four directive patterns before voice
optimization) does guarantee a directive-free spoken text whenever the
directives are separated by bracket-free filler, as in any well-formed
model response: on such input the spoken text contains no substring
matching any of the four directive grammars at any position.  (Without
that separation hypothesis the guarantee fails: deleting one directive
can splice its bracket-free neighbours into a new directive, see the
C2 counterexample.) -/
theorem c2_amended_spoken_directive_free (s0 s1 s2 s3 s4 s5 s6 s7 s8 : Str)
    (h0 : '[' ∉ s0) (h1 : '[' ∉ s1) (h2 : '[' ∉ s2) (h3 : '[' ∉ s3) (h4 : '[' ∉ s4)
    (h5 : '[' ∉ s5) (h6 : '[' ∉ s6) (h7 : '[' ∉ s7) (h8 : '[' ∉ s8) :
    NoDirective ((process_response_for_enhanced_features
      (c1Text s0 s1 s2 s3 s4 s5 s6 s7 s8)).spoken_text) := by
  rw [process_spoken,
    subLink_c1Text s0 s1 s2 s3 s4 s5 s6 s7 s8 h0 h1 h2 h3 h4 h5 h6 h7 h8,
    subCard_c1Text s0 s1 s2 s3 s4 s5 s6 s7 s8 h0 h1 h2 h3 h4 h5 h6 h7 h8,
    subCompare_c1Text s0 s1 s2 s3 s4 s5 s6 s7 s8 h0 h1 h2 h3 h4 h5 h6 h7 h8,
    subPurchase_c1Text s0 s1 s2 s3 s4 s5 s6 s7 s8 h0 h1 h2 h3 h4 h5 h6 h7 h8]
  apply NoDirective_of_not_lb
  apply not_lb_optimize
  intro hmem
  simp only [List.append_assoc, List.mem_append] at hmem
  rcases hmem with h | h | h | h | h | h | h | h | h
  · exact h0 h
  · exact h1 h
  · exact h2 h
  · exact h3 h
  · exact h4 h
  · exact h5 h
  · exact h6 h
  · exact h7 h
  · exact h8 h

theorem c2_amended_witness :
    NoDirective ((process_response_for_enhanced_features
      (c1Text ("a ".toList) (" b ".toList) (" c ".toList) (" d ".toList)
        (" e ".toList) (" f ".toList) (" g ".toList) (" h ".toList)
        (" i".toList))).spoken_text) :=
  c2_amended_spoken_directive_free ("a ".toList) (" b ".toList) (" c ".toList)
    (" d ".toList) (" e ".toList) (" f ".toList) (" g ".toList) (" h ".toList)
    (" i".toList) (by decide) (by decide) (by decide) (by decide) (by decide)
    (by decide) (by decide) (by decide) (by decide)

/-! ## C3 amended: the voice optimizer is a fixpoint on clean outputs -/

theorem pyJoin_single (sep x : Str) : pyJoin sep [x] = x := rfl

theorem headGuard_bt_dl : HeadGuard (matchBracketTag hdrDisplayLink) :=
  headGuard_matchBracketTag _

theorem headGuard_bt_pc : HeadGuard (matchBracketTag hdrProductCard) :=
  headGuard_matchBracketTag _

theorem headGuard_bt_cp : HeadGuard (matchBracketTag hdrCompare) :=
  headGuard_matchBracketTag _

theorem headGuard_bt_pi : HeadGuard (matchBracketTag hdrPurchase) :=
  headGuard_matchBracketTag _

theorem defensiveSubs_eq_self {y : Str} (hlb : '[' ∉ y) (hstrip : pyStrip y = y) :
    defensiveSubs y = y := by
  show pyStrip (subAll (matchBracketTag hdrPurchase)
      (pyStrip (subAll (matchBracketTag hdrCompare)
        (pyStrip (subAll (matchBracketTag hdrProductCard)
          (pyStrip (subAll (matchBracketTag hdrDisplayLink) y))))))) = y
  rw [subAll_eq_self_of_nolb headGuard_bt_dl hlb, hstrip,
    subAll_eq_self_of_nolb headGuard_bt_pc hlb, hstrip,
    subAll_eq_self_of_nolb headGuard_bt_cp hlb, hstrip,
    subAll_eq_self_of_nolb headGuard_bt_pi hlb, hstrip]

theorem foldl_replace_eq_self {y : Str} (hk : keysFree y = true) :
    replacements.foldl (fun r kv => pyReplace kv.1 kv.2 r) y = y := by
  have hk' : replacements.all (fun kv => !(containsSub kv.1 y)) = true := hk
  have hall : ∀ kv ∈ replacements, containsSub kv.1 y = false := by
    intro kv hkv
    have := List.all_eq_true.mp hk' kv hkv
    simpa using this
  have haux : ∀ (L : List (Str × Str)), (∀ kv ∈ L, containsSub kv.1 y = false) →
      L.foldl (fun r kv => pyReplace kv.1 kv.2 r) y = y := by
    intro L
    induction L with
    | nil =>
      intro _
      rfl
    | cons kv L ih =>
      intro hL
      simp only [List.foldl_cons]
      rw [pyReplace_of_not_contains (hL kv (List.mem_cons_self kv L))]
      exact ih (fun p hp => hL p (List.mem_cons_of_mem kv hp))
  exact haux replacements hall

theorem truncSentences_eq_self {r : Str} (h : r.count '.' ≤ 3) :
    truncSentences r = r := by
  simp only [truncSentences]
  rw [if_neg]
  rw [length_pySplitCh]
  omega

theorem count_dot_optimize (x : Str) : (_optimize_for_voice x).count '.' ≤ 3 := by
  suffices h : ∀ r : Str, (pyStrip (truncSentences r)).count '.' ≤ 3 by
    simp only [_optimize_for_voice]
    exact h _
  intro r
  rw [count_pyStrip (by decide)]
  simp only [truncSentences]
  split
  · rename_i hlen
    rcases hps : pySplitCh '.' r with _ | ⟨a, rest⟩
    · exact absurd hps (pySplitCh_ne_nil '.' r)
    · rcases rest with _ | ⟨b, rest2⟩
      · rw [hps] at hlen
        simp at hlen
      · rcases rest2 with _ | ⟨c, rest3⟩
        · rw [hps] at hlen
          simp at hlen
        · have ha : ('.' : Char) ∉ a := not_mem_of_mem_pySplitCh
            (by rw [hps]; exact List.mem_cons_self _ _)
          have hb : ('.' : Char) ∉ b := not_mem_of_mem_pySplitCh
            (by rw [hps]; exact List.mem_cons_of_mem _ (List.mem_cons_self _ _))
          have hc : ('.' : Char) ∉ c := not_mem_of_mem_pySplitCh
            (by rw [hps]
                exact List.mem_cons_of_mem _ (List.mem_cons_of_mem _ (List.mem_cons_self _ _)))
          have htake : (a :: b :: c :: rest3).take 3 = [a, b, c] := rfl
          rw [htake]
          have hjoin : pyJoin (". ".toList) [a, b, c] =
              a ++ (". ".toList ++ (b ++ (". ".toList ++ c))) := by
            simp [pyJoin]
          rw [hjoin]
          simp [List.count_append, List.count_eq_zero.mpr ha,
            List.count_eq_zero.mpr hb, List.count_eq_zero.mpr hc]
  · rename_i hlen
    have hl := length_pySplitCh '.' r
    omega

theorem not_nl_optimize (x : Str) : '\n' ∉ _optimize_for_voice x := by
  intro h
  have h1 : '\n' ∉ pyJoin [' '] (voiceLines x) := by
    intro hm
    rcases mem_of_mem_pyJoin hm with hm | ⟨l, hl, hc⟩
    · simp at hm
    · unfold voiceLines at hl
      have hl' := List.mem_of_mem_filter hl
      rcases List.mem_map.mp hl' with ⟨l0, hl0, hmap⟩
      exact not_mem_of_mem_pySplitCh hl0 (mem_of_mem_pyStrip (hmap ▸ hc))
  have h2 : '\n' ∉ defensiveSubs (pyJoin [' '] (voiceLines x)) := fun hm =>
    h1 (mem_of_mem_defensiveSubs hm)
  have h3 : '\n' ∉ replacements.foldl (fun r kv => pyReplace kv.1 kv.2 r)
      (defensiveSubs (pyJoin [' '] (voiceLines x))) :=
    not_mem_foldl_replace replacements _ (by decide) h2
  have h4 : '\n' ∈ truncSentences (replacements.foldl (fun r kv => pyReplace kv.1 kv.2 r)
      (defensiveSubs (pyJoin [' '] (voiceLines x)))) := mem_of_mem_pyStrip h
  rcases mem_of_mem_truncSentences h4 with h5 | h5 | h5
  · exact h3 h5
  · exact absurd h5 (by decide)
  · exact absurd h5 (by decide)

theorem pyStrip_optimize (x : Str) :
    pyStrip (_optimize_for_voice x) = _optimize_for_voice x := by
  simp only [_optimize_for_voice]
  exact pyStrip_idem _

theorem optimize_fixpoint_aux {y : Str} (hlb : '[' ∉ y) (hnl : '\n' ∉ y)
    (hstrip : pyStrip y = y) (hk : keysFree y = true)
    (hm : startsMarker y = false) (hdots : y.count '.' ≤ 3) :
    _optimize_for_voice y = y := by
  rcases hy : y with _ | ⟨c, t⟩
  · rfl
  · subst hy
    have h1 : voiceLines (c :: t) = [c :: t] := by
      unfold voiceLines
      rw [pySplitCh_of_not_mem hnl]
      simp only [List.map_cons, List.map_nil]
      rw [hstrip]
      simp [List.filter, hm]
    simp only [_optimize_for_voice]
    rw [h1, pyJoin_single, defensiveSubs_eq_self hlb hstrip,
      foldl_replace_eq_self hk, truncSentences_eq_self hdots]
    exact hstrip

/-- C3 amended: the Voice Text Optimizer is NOT idempotent in general
(see the C3 counterexample, where deleting `www.` splices a new `http`
key), but it is a fixpoint on every output that is free of the
rewriting side conditions: if the optimized text contains no
replacement key (`keysFree`), does not itself start with a list
marker, and contains no `[`, then a second pass returns it
unchanged.  The remaining preconditions of the pass — no newline, no
surrounding whitespace, and at most three periods — hold for every
optimizer output and are discharged internally. -/
theorem c3_amended_fixpoint_on_clean (x : Str)
    (hk : keysFree (_optimize_for_voice x) = true)
    (hm : startsMarker (_optimize_for_voice x) = false)
    (hlb : '[' ∉ _optimize_for_voice x) :
    _optimize_for_voice (_optimize_for_voice x) = _optimize_for_voice x :=
  optimize_fixpoint_aux hlb (not_nl_optimize x) (pyStrip_optimize x) hk hm
    (count_dot_optimize x)

theorem c3_amended_witness :
    _optimize_for_voice (_optimize_for_voice ("hello world. nice day".toList)) =
      _optimize_for_voice ("hello world. nice day".toList) :=
  c3_amended_fixpoint_on_clean ("hello world. nice day".toList)
    (by decide) (by decide) (by decide)

end EchoBuy
